import Mathlib

/-!
A verification development for the Batch-Prediction repository,
a shallow embedding of the context-assembly and answer-post-processing
pipeline (src/batch_processor.py, src/context_cache.py).

Modelling conventions, chosen once and used throughout:
* Python `str` is Lean `String`; internal scanning works on `List Char`.
  Python string containment, `str.lower`, `str.strip`, `str.replace` and
  `str.split` are re-implemented below on `List Char` so that proofs can
  proceed by structural induction.
* Python numbers that the pipeline computes with exactly (timestamps in
  seconds, list indices) are `Nat` / `Int`; the float quantities of the
  relevance ranker (cosine similarity, wall-clock hours) are modelled as
  exact rationals `ℚ`, with the cosine-similarity function and the
  sentence-embedding model left abstract as fields of `Config`.
* The remote LLM call is nondeterministic from the program's point of
  view; it is modelled as an oracle `call : Nat → Except String String`
  giving, per question position, either the returned text or the message
  of the exception it raised.  Python's `dict` iteration (insertion
  order) becomes a plain list.
* `asyncio.gather` collects the per-question coroutine results in task
  creation order, and the only awaits inside a task are rate-limiter
  acquisitions (the `generate_content` call itself is synchronous), so a
  batch is modelled as sequential state-passing in input order.
-/

set_option maxRecDepth 4000

/-! ## Character and string utilities (Python semantics) -/

/-- ASCII decimal digit test, the `\d` of the citation regexes. -/
def isDigitChar (c : Char) : Bool := '0' ≤ c && c ≤ '9'

/-- Python's `\s` (and the default `str.strip` / `str.split` class):
space, tab, newline, carriage return, vertical tab, form feed. -/
def isPySpace (c : Char) : Bool :=
  c = ' ' || c = '\t' || c = '\n' || c = '\r' || c = '\x0b' || c = '\x0c'

/-- ASCII lower-casing of one character, the effect of `str.lower` on the
characters that appear in the pipeline. -/
def lowerChar (c : Char) : Char :=
  if 'A' ≤ c && c ≤ 'Z' then Char.ofNat (c.toNat + 32) else c

/-- Python `str.lower`. -/
def py_lower (s : String) : String := String.mk (s.toList.map lowerChar)

/-- Python's `<` on strings: lexicographic comparison by code point. -/
def list_char_lt : List Char → List Char → Bool
  | [], [] => false
  | [], _ :: _ => true
  | _ :: _, [] => false
  | a :: as, b :: bs => if a < b then true else if b < a then false else list_char_lt as bs

/-- Python's `a <= b` on strings: `¬ (b < a)` lexicographically. -/
def py_str_le (a b : String) : Bool := !(list_char_lt b.toList a.toList)

/-- Python `str.strip()` on a character list: drop leading and trailing
whitespace. -/
def py_strip_list (l : List Char) : List Char :=
  ((l.dropWhile isPySpace).reverse.dropWhile isPySpace).reverse

/-- Python `str.strip()`. -/
def py_strip (s : String) : String := String.mk (py_strip_list s.toList)

/-- `needle in haystack` for Python strings, on character lists. -/
def has_sub : List Char → List Char → Bool
  | [], needle => needle.isEmpty
  | c :: t, needle => List.isPrefixOf needle (c :: t) || has_sub t needle

/-- Python's substring test `needle in hay`. -/
def contains_sub (hay needle : String) : Bool := has_sub hay.toList needle.toList

/-- Python `str.split(sep)` for a one-character separator. -/
def split_on_char (c : Char) : List Char → List (List Char)
  | [] => [[]]
  | a :: rest =>
    if a = c then [] :: split_on_char c rest
    else
      match split_on_char c rest with
      | [] => [[a]]
      | g :: gs => (a :: g) :: gs

/-- One step of Python `str.replace(needle, repl)`: fuelled scan over the
haystack; with fuel at least the haystack length (our callers always pass
a non-empty needle) it replaces every non-overlapping occurrence
left-to-right, exactly as `str.replace` does. -/
def replace_go : Nat → List Char → List Char → List Char → List Char
  | 0, _, _, hay => hay
  | fuel + 1, needle, repl, hay =>
    match hay with
    | [] => []
    | c :: rest =>
      if List.isPrefixOf needle (c :: rest) then
        repl ++ replace_go fuel needle repl ((c :: rest).drop needle.length)
      else
        c :: replace_go fuel needle repl rest

/-- Python `hay.replace(needle, repl)` (all occurrences). -/
def replace_all (hay needle repl : String) : String :=
  String.mk (replace_go hay.toList.length needle.toList repl.toList hay.toList)

/-- Python `str.split()` (whitespace, empties dropped): fuelled word scan. -/
def words_go : Nat → List Char → List (List Char)
  | 0, _ => []
  | fuel + 1, l =>
    let l1 := l.dropWhile isPySpace
    match l1 with
    | [] => []
    | _ :: _ =>
      (l1.takeWhile (fun c => !isPySpace c)) ::
        words_go fuel (l1.dropWhile (fun c => !isPySpace c))

/-- Python `str.split()` on whitespace. -/
def py_words (s : String) : List String :=
  (words_go s.toList.length s.toList).map String.mk

/-- First-occurrence deduplication, the effect of building a Python `set`
when only membership and cardinality are consumed. -/
def dedup (l : List String) : List String :=
  l.foldl (fun acc s => if acc.contains s then acc else acc ++ [s]) []

/-! ## The citation regexes of batch_processor.py

`re.findall(r'\[(\d{2}:\d{2}:\d{2}(?:\.\d{3})?(?:\s*-\s*\d{2}:\d{2}:\d{2}(?:\.\d{3})?)?)\]', answer)`
and `re.match(r'^\d{2}:\d{2}:\d{2}(?:\.\d{3})?$', ts)`.

For this pattern the greedy left-to-right match never needs to backtrack:
after a fractional part the next character is never `]`, space or `-`,
and after a matched range alternative the character at the fallback
position is never `]`; so a deterministic scanner is exact. -/

/-- Match `\d{2}:\d{2}:\d{2}(?:\.\d{3})?` at the head of the list,
returning the matched characters and the remainder. -/
def matchTimePart : List Char → Option (List Char × List Char)
  | a :: b :: c1 :: c :: d :: c2 :: e :: f :: rest =>
    if isDigitChar a && isDigitChar b && c1 = ':' && isDigitChar c &&
       isDigitChar d && c2 = ':' && isDigitChar e && isDigitChar f then
      let base := [a, b, ':', c, d, ':', e, f]
      match rest with
      | '.' :: x :: y :: z :: rest2 =>
        if isDigitChar x && isDigitChar y && isDigitChar z then
          some (base ++ ['.', x, y, z], rest2)
        else some (base, rest)
      | _ => some (base, rest)
    else none
  | _ => none

/-- After an opening `[`, match the capture group and the closing `]`,
returning the captured characters and the input after the match. -/
def matchAfterBracket (l : List Char) : Option (List Char × List Char) :=
  match matchTimePart l with
  | none => none
  | some (t1, r1) =>
    let tryRange : Option (List Char × List Char) :=
      let ws1 := r1.takeWhile isPySpace
      match r1.dropWhile isPySpace with
      | '-' :: r3 =>
        let ws2 := r3.takeWhile isPySpace
        match matchTimePart (r3.dropWhile isPySpace) with
        | some (t2, r5) => some (ws1 ++ '-' :: (ws2 ++ t2), r5)
        | none => none
      | _ => none
    match tryRange with
    | some (rng, r5) =>
      match r5 with
      | ']' :: rest => some (t1 ++ rng, rest)
      | _ => none
    | none =>
      match r1 with
      | ']' :: rest => some (t1, rest)
      | _ => none

/-- Fuelled scan of `re.findall` over the answer: try the pattern at each
position, and continue after the whole match (non-overlapping), else
advance one character. -/
def find_timestamps_go : Nat → List Char → List (List Char)
  | 0, _ => []
  | _ + 1, [] => []
  | fuel + 1, c :: rest =>
    if c = '[' then
      match matchAfterBracket rest with
      | some (cap, rest') => cap :: find_timestamps_go fuel rest'
      | none => find_timestamps_go fuel rest
    else find_timestamps_go fuel rest

/-- `re.findall` of the citation pattern: the list of captured timestamp
(or timestamp-range) strings, in order of occurrence. -/
def find_timestamps (s : String) : List String :=
  (find_timestamps_go s.toList.length s.toList).map String.mk

/-- `re.match(r'^\d{2}:\d{2}:\d{2}(?:\.\d{3})?$', ·)` on a character
list.  Note Python's `$` also matches just before one final newline. -/
def strict_timestamp_core : List Char → Bool
  | a :: b :: c1 :: c :: d :: c2 :: e :: f :: rest =>
    isDigitChar a && isDigitChar b && c1 = ':' && isDigitChar c &&
    isDigitChar d && c2 = ':' && isDigitChar e && isDigitChar f &&
    (match rest with
     | [] => true
     | ['\n'] => true
     | '.' :: x :: y :: z :: r2 =>
       isDigitChar x && isDigitChar y && isDigitChar z &&
       (r2.isEmpty || r2 = ['\n'])
     | _ => false)
  | _ => false

/-- The code's strict-format check on a timestamp string. -/
def matches_strict_timestamp (s : String) : Bool := strict_timestamp_core s.toList

/-- Modelled from the spec's words (§3 invariant): a string that is
strictly `HH:MM:SS` with optional `.mmm` fraction and nothing else.
Used only to compare the code's `$`-anchored check against the spec. -/
def spec_strict_timestamp (s : String) : Bool :=
  match s.toList with
  | a :: b :: c1 :: c :: d :: c2 :: e :: f :: rest =>
    isDigitChar a && isDigitChar b && c1 = ':' && isDigitChar c &&
    isDigitChar d && c2 = ':' && isDigitChar e && isDigitChar f &&
    (match rest with
     | [] => true
     | '.' :: x :: y :: z :: r2 =>
       isDigitChar x && isDigitChar y && isDigitChar z && r2.isEmpty
     | _ => false)
  | _ => false

/-! ## Data model (context_cache.py) -/

/-- A transcript chunk, a value of `ContextCache.transcript_cache`.
The Python store is a dict keyed by `start_time ++ "_" ++ end_time`; we
model the sequence of its values in insertion (iteration) order. -/
structure Chunk where
  index : Nat
  start_time : String
  end_time : String
  text : String
deriving DecidableEq, Repr

/-- A QA-history record of `ContextCache.qa_cache`.  `time` is the
wall-clock instant of `add_qa_pair`, in hours (the code stores an ISO
string and later works with `(now - time)` in hours); `embedding` is the
lazily backfilled sentence embedding. -/
structure QAPair where
  question : String
  answer : String
  timestamps : List String
  time : ℚ
  embedding : Option (List ℚ)
deriving DecidableEq, Repr

/-- The in-memory state of a `ContextCache`. -/
structure CacheState where
  transcript_cache : List Chunk
  qa_cache : List QAPair
deriving DecidableEq, Repr

/-- The ambient processor configuration: the optional YouTube video id,
the optional Google provider cache id, the sentence-embedding model
(`none` = `sentence_transformers` unavailable, triggering the lexical
fallback), the abstract exact cosine-similarity function, and the
current wall-clock time in hours. -/
structure Config where
  video_id : Option String
  google_cache_id : Option String
  encode : Option (String → List ℚ)
  cosine_similarity : List ℚ → List ℚ → ℚ
  now : ℚ

/-- A per-question result record: `{question, answer, timestamps,
success: True}` or `{question, error, success: False}`.  The `error`
field carries the oracle's message (the code formats it together with a
traceback). -/
inductive BResult where
  | ok (question answer : String) (timestamps : List String)
  | fail (question error : String)
deriving DecidableEq, Repr

/-- The `question` field of a result record. -/
def BResult.question : BResult → String
  | .ok q _ _ => q
  | .fail q _ => q

/-- The `success` field of a result record. -/
def BResult.success : BResult → Bool
  | .ok _ _ _ => true
  | .fail _ _ => false

/-! ## Transcript Store: get_transcript_context -/

/-- The `"[start - end] text\n\n"` block of one chunk. -/
def chunk_block (ch : Chunk) : String :=
  "[" ++ ch.start_time ++ " - " ++ ch.end_time ++ "] " ++ ch.text ++ "\n\n"

/-- The timestamp-filtering pass of `get_transcript_context`: for each
requested timestamp, in order, every chunk (in store order) whose
`[start_time, end_time]` interval contains it under Python's
lexicographic string comparison. -/
def filtered_chunks (tc : List Chunk) (timestamps : List String) : List Chunk :=
  timestamps.flatMap (fun t =>
    tc.filter (fun ch => py_str_le ch.start_time t && py_str_le t ch.end_time))

/-- The chunk sequence considered by `get_transcript_context` before the
character-budget truncation: all chunks (no timestamps) or the filtered
chunks, stably sorted by ascending `index` (Python `sorted` is stable). -/
def ordered_chunks (tc : List Chunk) (timestamps : List String) : List Chunk :=
  if timestamps.isEmpty then
    List.insertionSort (fun a b : Chunk => a.index ≤ b.index) tc
  else
    List.insertionSort (fun a b : Chunk => a.index ≤ b.index)
      (filtered_chunks tc timestamps)

/-- The accumulation loop of `get_transcript_context`: append whole
blocks while the cumulative length stays within `max_chars`; the first
overflowing chunk `break`s the loop. -/
def take_blocks (max_chars : Int) (acc : String) : List Chunk → String
  | [] => acc
  | ch :: rest =>
    let chunk_text := chunk_block ch
    if (acc.length : Int) + (chunk_text.length : Int) > max_chars then acc
    else take_blocks max_chars (acc ++ chunk_text) rest

/-- `ContextCache.get_transcript_context(timestamps, max_chars)`.
An empty `timestamps` list models both Python's `None` default and an
empty list (the code tests `if not timestamps`).  The final
`context.strip()` is `py_strip`. -/
def get_transcript_context (tc : List Chunk) (timestamps : List String)
    (max_chars : Int) : String :=
  py_strip (take_blocks max_chars "" (ordered_chunks tc timestamps))

/-! ## Relevance ranking: get_related_qa -/

/-- Backfill of a missing embedding on a history record
(`qa['embedding'] = self._model.encode([qa['question']])[0]`). -/
def backfill_embedding (enc : String → List ℚ) (qa : QAPair) : QAPair :=
  match qa.embedding with
  | some _ => qa
  | none => { qa with embedding := some (enc qa.question) }

/-- The embedding vector used for a record (present or just computed). -/
def qa_embedding_value (enc : String → List ℚ) (qa : QAPair) : List ℚ :=
  match qa.embedding with
  | some e => e
  | none => enc qa.question

/-- The spec's recency weight: `time_decay(Δhours) = 1 / (1 + Δhours/24)`. -/
def time_decay (delta_hours : ℚ) : ℚ := 1 / (1 + delta_hours / 24)

/-- The blended score of one record:
`final_score = similarity * 0.7 + time_factor * 0.3`. -/
def qa_score (cfg : Config) (enc : String → List ℚ) (q_emb : List ℚ)
    (qa : QAPair) : ℚ :=
  let similarity := cfg.cosine_similarity q_emb (qa_embedding_value enc qa)
  let time_diff := cfg.now - qa.time
  let time_factor := 1 / (1 + time_diff / 24)
  similarity * 0.7 + time_factor * 0.3

/-- The scored history, descending by score, built by the primary path
of `get_related_qa`: records are backfilled, scored against the question
embedding, and stably sorted by descending score (Python
`sorted(..., reverse=True)` keeps insertion order on ties). -/
def ranked_scored_qa (cfg : Config) (enc : String → List ℚ)
    (qc : List QAPair) (q : String) : List (ℚ × QAPair) :=
  let q_emb := enc q
  let scored := qc.map (fun qa =>
    let qa' := backfill_embedding enc qa
    (qa_score cfg enc q_emb qa', qa'))
  List.insertionSort (fun a b : ℚ × QAPair => b.1 ≤ a.1) scored

/-- `ContextCache._fallback_keyword_matching`: lexical-overlap scoring
used when the embedding model is unavailable. -/
def fallback_keyword_matching (qc : List QAPair) (q : String)
    (max_pairs : Nat) : List QAPair :=
  let keywords := dedup (py_words (py_lower q))
  let scored := qc.map (fun qa =>
    let qa_keywords := dedup (py_words (py_lower qa.question))
    let overlap : ℚ :=
      if keywords.isEmpty then 0
      else ((keywords.filter (fun k => qa_keywords.contains k)).length : ℚ) /
           (keywords.length : ℚ)
    (overlap, qa))
  ((List.insertionSort (fun a b : ℚ × QAPair => b.1 ≤ a.1) scored).take
    max_pairs).map Prod.snd

/-- `ContextCache.get_related_qa(question, max_pairs)`: returns the
ranked pairs and the (possibly embedding-backfilled) updated history.
Empty history returns immediately; a missing embedding model falls back
to keyword matching and touches nothing. -/
def get_related_qa (cfg : Config) (qc : List QAPair) (q : String)
    (max_pairs : Nat) : List QAPair × List QAPair :=
  if qc.isEmpty then ([], qc)
  else
    match cfg.encode with
    | none => (fallback_keyword_matching qc q max_pairs, qc)
    | some enc =>
      (((ranked_scored_qa cfg enc qc q).take max_pairs).map Prod.snd,
       qc.map (backfill_embedding enc))

/-- `ContextCache.add_qa_pair`: append with the current wall clock and
no embedding yet. -/
def add_qa_pair (cfg : Config) (qc : List QAPair) (question answer : String)
    (related_timestamps : List String) : List QAPair :=
  qc ++ [⟨question, answer, related_timestamps, cfg.now, none⟩]

/-! ## Answer Post-Processor (batch_processor.py, shared by both
single-question pipelines, lines 226-382 and 545-701) -/

/-- The fixed apology substituted for an empty or literal "none" answer. -/
def apology_message : String :=
  "I apologize, but I couldn't generate a meaningful answer for this question. This might be due to limitations in the API response or the content of the video transcript. Please try rephrasing your question or asking about a different aspect of the video."

/-- The fixed notice prepended when no-information phrasing is detected. -/
def no_info_notice : String :=
  "No information found in the transcript for this question. "

/-- The fixed list of "no information found" phrases. -/
def no_info_phrases : List String :=
  ["does not mention",
   "doesn't mention",
   "not mentioned",
   "no information",
   "not found in the transcript",
   "not discussed in the transcript",
   "not covered in the transcript",
   "not provided in the transcript",
   "not stated in the transcript",
   "not indicated in the transcript",
   "not referenced in the transcript",
   "not included in the transcript",
   "not present in the transcript",
   "not available in the transcript",
   "not given in the transcript",
   "not shown in the transcript",
   "not described in the transcript",
   "not explained in the transcript",
   "not detailed in the transcript",
   "not specified in the transcript",
   "not outlined in the transcript",
   "not listed in the transcript",
   "not recorded in the transcript",
   "not documented in the transcript",
   "not noted in the transcript",
   "not reported in the transcript",
   "not revealed in the transcript",
   "not disclosed in the transcript",
   "not communicated in the transcript",
   "not conveyed in the transcript",
   "not expressed in the transcript",
   "not articulated in the transcript",
   "cannot find",
   "could not find",
   "unable to find",
   "no mention of",
   "no reference to",
   "no indication of",
   "no evidence of",
   "no data on",
   "no details about",
   "no information about",
   "no discussion of",
   "no coverage of",
   "no explanation of",
   "no description of",
   "no specification of",
   "no outline of",
   "no list of",
   "no record of",
   "no documentation of",
   "no note of",
   "no report of",
   "no revelation of",
   "no disclosure of",
   "no communication of",
   "no conveyance of",
   "no expression of",
   "no articulation of"]

/-- The smaller "strong" marker subset checked before prepending the
notice. -/
def strong_no_info_markers : List String :=
  ["no information", "not found", "cannot find"]

/-- `any(phrase.lower() in answer.lower() for phrase in no_info_phrases)`. -/
def no_info_found (answer : String) : Bool :=
  no_info_phrases.any (fun p => contains_sub (py_lower answer) (py_lower p))

/-- `any(phrase.lower() in answer.lower() for phrase in
["no information", "not found", "cannot find"])`. -/
def strong_no_info (answer : String) : Bool :=
  strong_no_info_markers.any (fun p => contains_sub (py_lower answer) (py_lower p))

/-- `int(digits)` on the digit strings produced by the citation regex. -/
def parse_nat (l : List Char) : Nat :=
  l.foldl (fun acc c => acc * 10 + (c.toNat - 48)) 0

/-- `int(float(s))` for `s` of shape `SS` or `SS.mmm` (the only shapes
the regex lets through): the floor is the integer part before the dot. -/
def parse_int_float (l : List Char) : Nat :=
  parse_nat (l.takeWhile (fun c => !(c == '.')))

/-- The nested `timestamp_to_seconds` helper:
split on `:`; three parts give `h*3600 + m*60 + int(float(s))`, two give
`m*60 + int(float(s))`, anything else gives 0. -/
def timestamp_to_seconds (ts : String) : Nat :=
  match split_on_char ':' ts.toList with
  | [h, m, s] => parse_nat h * 3600 + parse_nat m * 60 + parse_int_float s
  | [m, s] => parse_nat m * 60 + parse_int_float s
  | _ => 0

/-- The YouTube deep link for a timestamp string. -/
def youtube_link (vid : String) (ts : String) : String :=
  "https://youtu.be/" ++ vid ++ "?t=" ++ toString (timestamp_to_seconds ts)

/-- The citation-rewriting loop: for each extracted timestamp, replace
every `[ts]` occurrence with `[ts](link)`; a range links its stripped
start time. -/
def convert_links (vid : String) (tss : List String) (answer : String) : String :=
  tss.foldl (fun ans ts =>
    if ts.toList.contains '-' then
      let start_time := py_strip (String.mk (ts.toList.takeWhile (fun c => !(c == '-'))))
      replace_all ans ("[" ++ ts ++ "]")
        ("[" ++ ts ++ "](" ++ youtube_link vid start_time ++ ")")
    else
      replace_all ans ("[" ++ ts ++ "]")
        ("[" ++ ts ++ "](" ++ youtube_link vid ts ++ ")")) answer

/-- Step 1 of the post-processor: coerce, substituting the apology for an
empty or (case-insensitively) literal "none" answer. -/
def coerce_answer (raw : String) : String :=
  if raw = "" || py_lower raw = "none" then apology_message else raw

/-- The answer text after citation extraction and link rewriting
(steps 1-3): the state of `answer` at the no-information scan. -/
def answer_after_links (cfg : Config) (raw : String) : String :=
  match cfg.video_id with
  | none => coerce_answer raw
  | some vid => convert_links vid (find_timestamps (coerce_answer raw)) (coerce_answer raw)

/-- The inferred-citation recovery path: every chunk boundary timestamp
(`start_time` then `end_time`, in store order) that occurs verbatim in
the answer. -/
def extract_transcript_mentions (tc : List Chunk) (answer : String) : List String :=
  (tc.flatMap (fun ch => [ch.start_time, ch.end_time])).filter
    (fun t => contains_sub answer t)

/-- The validation pass: keep strict matches; reduce a range candidate
to its stripped start and keep that when it matches; drop the rest. -/
def validate_timestamps (tss : List String) : List String :=
  tss.filterMap (fun ts =>
    if matches_strict_timestamp ts then some ts
    else if ts.toList.contains '-' then
      if matches_strict_timestamp
          (py_strip (String.mk (ts.toList.takeWhile (fun c => !(c == '-'))))) then
        some (py_strip (String.mk (ts.toList.takeWhile (fun c => !(c == '-')))))
      else none
    else none)

/-- The whole post-processing pipeline applied to a raw model response:
returns the final answer text and the final timestamp list. -/
def post_process_answer (cfg : Config) (tc : List Chunk) (raw : String) :
    String × List String :=
  let ts0 := find_timestamps (coerce_answer raw)
  let answer1 := answer_after_links cfg raw
  if no_info_found answer1 then
    let answer2 := if strong_no_info answer1 then answer1
                   else no_info_notice ++ answer1
    (answer2, validate_timestamps [])
  else
    let ts1 := if ts0.isEmpty then extract_transcript_mentions tc answer1 else ts0
    (answer1, validate_timestamps ts1)

/-! ## Prompt Assembler -/

/-- One `"Q: …\nA: …\n\n"` history block. -/
def qa_block (question answer : String) : String :=
  "Q: " ++ question ++ "\nA: " ++ answer ++ "\n\n"

/-- Concatenated history blocks of ranked QA pairs. -/
def history_blocks : List QAPair → String
  | [] => ""
  | qa :: rest => qa_block qa.question qa.answer ++ history_blocks rest

/-- An in-batch prior answer of an interconnected run
(`{'question': …, 'answer': …, 'timestamps': …}`). -/
structure PrevAnswer where
  question : String
  answer : String
  timestamps : List String
deriving DecidableEq, Repr

/-- Concatenated blocks of the in-batch prior answers. -/
def prev_blocks : List PrevAnswer → String
  | [] => ""
  | pa :: rest => qa_block pa.question pa.answer ++ prev_blocks rest

/-- The fixed standalone header, up to and including the
`Video Transcript:` label. -/
def standalone_header : String :=
  "Please answer the following question based on the video transcript. If the information is not found in the transcript, please indicate this clearly.\n\nIMPORTANT: When referencing information from the transcript, ALWAYS include the timestamp in square brackets like this: [HH:MM:SS]. For example: \"The speaker mentions at [00:01:30] that...\"\n\nVideo Transcript:\n"

/-- The fixed header of the cached-content prompt (no transcript label). -/
def cached_header : String :=
  "Please answer the following question based on the video transcript. If the information is not found in the transcript, please indicate this clearly.\n\nIMPORTANT: When referencing information from the transcript, ALWAYS include the timestamp in square brackets like this: [HH:MM:SS]. For example: \"The speaker mentions at [00:01:30] that...\"\n\n"

/-- The fixed interconnected header, up to and including the
`Video Transcript:` label. -/
def interconnected_header : String :=
  "Please answer the following question based on the video transcript and previous answers.\nIf the information is not found in the transcript, please indicate this clearly.\n\nIMPORTANT: When referencing information from the transcript, ALWAYS include the timestamp in square brackets like this: [HH:MM:SS]. For example: \"The speaker mentions at [00:01:30] that...\"\n\nVideo Transcript:\n"

/-- The ranked-history section shared by all prompt builders. -/
def related_section (related : List QAPair) : String :=
  if related.isEmpty then ""
  else "Here are previous questions and answers related to the video:\n\n" ++
       history_blocks related

/-- `BatchProcessor._create_prompt`: the standalone prompt, plus the
updated (possibly backfilled) QA history. -/
def create_prompt (cfg : Config) (st : CacheState) (q : String) :
    String × List QAPair :=
  (standalone_header ++ get_transcript_context st.transcript_cache [] 8000 ++
     "\n\n" ++ related_section (get_related_qa cfg st.qa_cache q 3).1 ++
     "\nQuestion: " ++ q ++ "\n",
   (get_related_qa cfg st.qa_cache q 3).2)

/-- The concise prompt rebuilt inside `_process_single_question_async`
when a Google cache id is active. -/
def create_cached_prompt (related : List QAPair) (q : String) : String :=
  cached_header ++ related_section related ++ "\nQuestion: " ++ q ++ "\n"

/-- The prompt actually sent by `_process_single_question_async`:
`_create_prompt` always runs first; with an active cache id the history
is re-ranked and the concise cached prompt replaces it. -/
def build_single_prompt (cfg : Config) (st : CacheState) (q : String) :
    String × List QAPair :=
  match cfg.google_cache_id with
  | none => create_prompt cfg st q
  | some _ =>
    (create_cached_prompt (get_related_qa cfg (create_prompt cfg st q).2 q 3).1 q,
     (get_related_qa cfg (create_prompt cfg st q).2 q 3).2)

/-- `BatchProcessor._create_interconnected_prompt`: ranked history, then
the in-batch prior answers, then the transcript-bearing prompt.  Note
the builder never consults the Google cache id.  Also returns the
updated QA history. -/
def create_interconnected_prompt (cfg : Config) (qc : List QAPair)
    (tc : List Chunk) (q : String) (previous_answers : List PrevAnswer) :
    String × List QAPair :=
  (interconnected_header ++ get_transcript_context tc [] 8000 ++ "\n\n" ++
     (if previous_answers.isEmpty then
        related_section (get_related_qa cfg qc q 3).1
      else
        related_section (get_related_qa cfg qc q 3).1 ++
          "Here are the answers to previous questions in this batch:\n\n" ++
          prev_blocks previous_answers) ++
     "\nQuestion: " ++ q ++ "\n",
   (get_related_qa cfg qc q 3).2)

/-! ## Batch Orchestrator -/

/-- `BatchProcessor._process_single_question_async` for one question.
The remote call is abstracted into `outcome` (returned text, or the
message of the exception it raised).  The prompt is always constructed
first — its ranking side effect (embedding backfill) lands in the state
either way — and a raised call yields the failure record with the state
otherwise untouched; a successful call post-processes the text and
appends the exchange to the QA history. -/
def process_single_question_async (cfg : Config) (st : CacheState)
    (q : String) (outcome : Except String String) : BResult × CacheState :=
  let qc1 := (build_single_prompt cfg st q).2
  let st1 : CacheState := { st with qa_cache := qc1 }
  match outcome with
  | .error e => (.fail q e, st1)
  | .ok raw =>
    let pp := post_process_answer cfg st1.transcript_cache raw
    (.ok q pp.1 pp.2,
     { st1 with qa_cache := add_qa_pair cfg st1.qa_cache q pp.1 pp.2 })

/-- The sequential elaboration of one gathered group (and, composed over
groups, of the whole run): question `i` consumes oracle outcome
`call i`. -/
def process_batch_seq (cfg : Config) (call : Nat → Except String String) :
    Nat → CacheState → List String → List BResult × CacheState
  | _, st, [] => ([], st)
  | i, st, q :: rest =>
    let p := process_single_question_async cfg st q (call i)
    let ps := process_batch_seq cfg call (i + 1) p.2 rest
    (p.1 :: ps.1, ps.2)

/-- `max_batch_size` groups of `process_batch_async`
(`questions[i:i+10]`). -/
def to_batches (l : List String) : List (List String) :=
  if h : l = [] then [] else l.take 10 :: to_batches (l.drop 10)
termination_by l.length
decreasing_by
  simp only [List.length_drop]
  have : l.length ≠ 0 := fun hl => h (List.eq_nil_of_length_eq_zero hl)
  omega

/-- The group loop of `process_batch_async`: each group is gathered (in
task-creation order) before the next group starts. -/
def process_batch_groups (cfg : Config) (call : Nat → Except String String) :
    Nat → CacheState → List (List String) → List BResult × CacheState
  | _, st, [] => ([], st)
  | i, st, b :: bs =>
    let pb := process_batch_seq cfg call i st b
    let pbs := process_batch_groups cfg call (i + b.length) pb.2 bs
    (pb.1 ++ pbs.1, pbs.2)

/-- `BatchProcessor.process_batch_async`: independent-batch processing of
a question list under the positional call oracle. -/
def process_batch_async (cfg : Config) (call : Nat → Except String String)
    (st : CacheState) (questions : List String) : List BResult × CacheState :=
  process_batch_groups cfg call 0 st (to_batches questions)

/-- `BatchProcessor._process_single_question_with_prompt_async`: same
post-processing pipeline, but the prompt was built by the caller (the
in-model prompt argument is consumed by the positional oracle, so only
its construction's side effects matter here). -/
def process_single_question_with_prompt_async (cfg : Config) (st : CacheState)
    (q : String) (outcome : Except String String) : BResult × CacheState :=
  match outcome with
  | .error e => (.fail q e, st)
  | .ok raw =>
    let pp := post_process_answer cfg st.transcript_cache raw
    (.ok q pp.1 pp.2,
     { st with qa_cache := add_qa_pair cfg st.qa_cache q pp.1 pp.2 })

/-- The interconnected loop, recording for each question the prompt built
for it together with its result.  A success appends its exchange to the
in-memory `all_answers` list consumed by every later prompt; a failure
appends nothing. -/
def process_interconnected_go (cfg : Config) (call : Nat → Except String String) :
    Nat → CacheState → List PrevAnswer → List String →
    List (String × BResult) × CacheState
  | _, st, _, [] => ([], st)
  | i, st, prev, q :: rest =>
    let pr := create_interconnected_prompt cfg st.qa_cache st.transcript_cache q prev
    let st1 : CacheState := { st with qa_cache := pr.2 }
    let rs := process_single_question_with_prompt_async cfg st1 q (call i)
    let prev' := match rs.1 with
      | .ok rq ra rts => prev ++ [⟨rq, ra, rts⟩]
      | .fail _ _ => prev
    let rest_out := process_interconnected_go cfg call (i + 1) rs.2 prev' rest
    ((pr.1, rs.1) :: rest_out.1, rest_out.2)

/-- `BatchProcessor.process_interconnected_questions_async`. -/
def process_interconnected_questions_async (cfg : Config)
    (call : Nat → Except String String) (st : CacheState)
    (questions : List String) : List BResult × CacheState :=
  ((process_interconnected_go cfg call 0 st [] questions).1.map Prod.snd,
   (process_interconnected_go cfg call 0 st [] questions).2)

/-- The per-question record of the independent-batch mode, as a function
of the question, its oracle outcome and the (immutable) transcript store
alone; the orchestrator theorems show every batch result equals this. -/
def single_record (cfg : Config) (tc : List Chunk) (q : String)
    (outcome : Except String String) : BResult :=
  match outcome with
  | .error e => .fail q e
  | .ok raw =>
    .ok q (post_process_answer cfg tc raw).1 (post_process_answer cfg tc raw).2

/-- Strip the lazily backfilled embedding from a history record,
leaving the durable `(question, answer, timestamps, time)` content. -/
def strip_embedding (qa : QAPair) : QAPair := { qa with embedding := none }

/-- Two-digit zero-padded decimal rendering (`HH`, `MM`, `SS`). -/
def pad2c (n : Nat) : List Char := [Nat.digitChar (n / 10), Nat.digitChar (n % 10)]

/-- Three-digit zero-padded decimal rendering (`mmm`). -/
def pad3c (n : Nat) : List Char :=
  [Nat.digitChar (n / 100), Nat.digitChar (n / 10 % 10), Nat.digitChar (n % 10)]

/-- The canonical `HH:MM:SS` rendering of an hour/minute/second triple. -/
def format_hms (h m s : Nat) : String :=
  String.mk (pad2c h ++ ':' :: (pad2c m ++ ':' :: pad2c s))

/-- The canonical `HH:MM:SS.mmm` rendering with a millisecond fraction. -/
def format_hms_frac (h m s f : Nat) : String :=
  String.mk (pad2c h ++ ':' :: (pad2c m ++ ':' :: (pad2c s ++ '.' :: pad3c f)))

/-- Concatenation of the formatted blocks of a chunk sequence. -/
def blocks_concat : List Chunk → String
  | [] => ""
  | ch :: rest => chunk_block ch ++ blocks_concat rest

/-- The chunk ordering key used by `sorted(..., key=lambda x: x['index'])`. -/
instance chunk_index_le_total : IsTotal Chunk (fun a b => a.index ≤ b.index) :=
  ⟨fun a b => Nat.le_total a.index b.index⟩

instance chunk_index_le_trans : IsTrans Chunk (fun a b => a.index ≤ b.index) :=
  ⟨fun _ _ _ => Nat.le_trans⟩

/-- The descending score ordering of `sorted(..., reverse=True)`. -/
instance score_desc_total : IsTotal (ℚ × QAPair) (fun a b => b.1 ≤ a.1) :=
  ⟨fun a b => le_total b.1 a.1⟩

instance score_desc_trans : IsTrans (ℚ × QAPair) (fun a b => b.1 ≤ a.1) :=
  ⟨fun _ _ _ h1 h2 => le_trans h2 h1⟩

/-! Concrete fixtures for the demonstration runs used by the theorems:
a three-question interconnected session over a one-chunk transcript in
which the second remote call raises. -/

/-- A configuration with no video id, no provider cache and no embedding
model (the ranker uses its lexical fallback). -/
def demo_config : Config := ⟨none, none, none, fun _ _ => 0, 0⟩

/-- The demonstration oracle: question 0 succeeds, question 1 raises,
question 2 succeeds. -/
def demo_call : Nat → Except String String
  | 0 => .ok "Answer one at [00:00:01]."
  | 1 => .error "boom"
  | _ => .ok "Answer three."

/-- The demonstration transcript store. -/
def demo_chunk : Chunk := ⟨0, "00:00:00", "00:00:05", "hello"⟩

/-- The demonstration cache state: one transcript chunk, empty history. -/
def demo_state : CacheState := ⟨[demo_chunk], []⟩

/-! ## Generic lemmas about the string model -/

theorem has_sub_iff_infix (hay needle : List Char) :
    has_sub hay needle = true ↔ needle <:+: hay := by
  induction hay with
  | nil =>
    simp [has_sub, List.isEmpty_iff]
  | cons c t ih =>
    simp [has_sub, List.infix_cons_iff, List.isPrefixOf_iff_prefix, ih]

theorem contains_sub_iff (s t : String) :
    contains_sub s t = true ↔ t.toList <:+: s.toList := by
  simpa [contains_sub] using has_sub_iff_infix s.toList t.toList

theorem string_toList_append (a b : String) :
    (a ++ b).toList = a.toList ++ b.toList := by
  simpa [String.toList] using String.data_append a b

/-! ## Claim C5: timestamp validation -/

/-- C5 (amended): on the spec's example input, validation returns exactly
`["00:01:30", "00:02:00"]`; every candidate passing the code's anchored
format check is kept verbatim; and everything surfaced by validation
passes that check (a range surfaces its stripped start).  The code's
check is the strict `HH:MM:SS[.mmm]` pattern up to one optional trailing
newline (Python's `$`). -/
theorem c5_validation_characterization :
    validate_timestamps ["00:01:30", "00:02:00 - 00:02:15", "1:2:3", "abc"] =
      ["00:01:30", "00:02:00"] ∧
    (∀ (l : List String) (ts : String), ts ∈ l →
      matches_strict_timestamp ts = true → ts ∈ validate_timestamps l) ∧
    (∀ (l : List String) (ts : String), ts ∈ validate_timestamps l →
      matches_strict_timestamp ts = true) := by
  refine ⟨by decide, ?_, ?_⟩
  · intro l ts hmem hok
    refine List.mem_filterMap.mpr ⟨ts, hmem, ?_⟩
    simp [hok]
  · intro l ts hmem
    rcases List.mem_filterMap.mp hmem with ⟨a, -, hf⟩
    split at hf
    · cases hf
      assumption
    · split at hf
      · split at hf
        · cases hf
          assumption
        · cases hf
      · cases hf

/-- Witness for C5: the kept-verbatim direction at a concrete input, and
a surfaced range start passing the check, both via the theorem. -/
theorem c5_witness :
    "00:01:30" ∈ validate_timestamps ["x", "00:01:30"] ∧
    matches_strict_timestamp "00:02:00" = true := by
  refine ⟨c5_validation_characterization.2.1 ["x", "00:01:30"] "00:01:30"
      (by decide) (by decide), ?_⟩
  exact c5_validation_characterization.2.2 ["00:02:00 - 00:02:15"] "00:02:00" (by decide)

/-- C5 counterexample: the code's `$` anchor also accepts one trailing
newline, so a candidate `"00:01:30\n"` is kept verbatim although it does
not match the spec's strict `HH:MM:SS[.mmm]` pattern. -/
theorem c5_counterexample :
    validate_timestamps ["00:01:30\n"] = ["00:01:30\n"] ∧
    spec_strict_timestamp "00:01:30\n" = false := by
  decide

/-! ## Claim C2: no-information suppression -/

/-- C2: whenever the post-link answer contains (case-insensitively) any
phrase of the fixed no-information list, the final timestamp list is
empty, and unless the answer already contains one of the strong marker
subset the fixed notice is prepended to it. -/
theorem c2_no_info_suppression (cfg : Config) (tc : List Chunk) (raw : String)
    (hno : no_info_found (answer_after_links cfg raw) = true) :
    (post_process_answer cfg tc raw).2 = [] ∧
    (strong_no_info (answer_after_links cfg raw) = false →
      (post_process_answer cfg tc raw).1 =
        no_info_notice ++ answer_after_links cfg raw) := by
  constructor
  · simp [post_process_answer, hno, validate_timestamps]
  · intro hstrong
    simp [post_process_answer, hno, hstrong]

/-- Witness for C2, the spec's concrete instance: an answer containing
"not mentioned" and the citation `[00:05:00]` comes out with an empty
timestamp list and the prepended notice. -/
theorem c2_witness :
    (post_process_answer ⟨none, none, none, fun _ _ => 0, 0⟩ []
        "The topic is not mentioned in the transcript. See [00:05:00].").2 = [] ∧
    (post_process_answer ⟨none, none, none, fun _ _ => 0, 0⟩ []
        "The topic is not mentioned in the transcript. See [00:05:00].").1 =
      "No information found in the transcript for this question. The topic is not mentioned in the transcript. See [00:05:00]." := by
  have h := c2_no_info_suppression ⟨none, none, none, fun _ _ => 0, 0⟩ []
    "The topic is not mentioned in the transcript. See [00:05:00]." (by decide)
  exact ⟨h.1, by rw [h.2 (by decide)]; decide⟩

/-! ## Claim C9: citation-to-seconds conversion and deep links -/

theorem digitChar_toNat (d : Nat) (hd : d < 10) :
    (Nat.digitChar d).toNat = 48 + d := by
  interval_cases d <;> rfl

theorem digitChar_ne_colon (d : Nat) (hd : d < 10) : Nat.digitChar d ≠ ':' := by
  interval_cases d <;> decide

theorem digitChar_ne_dot (d : Nat) (hd : d < 10) : Nat.digitChar d ≠ '.' := by
  interval_cases d <;> decide

theorem split_on_char_of_not_mem (c : Char) (l : List Char) (h : c ∉ l) :
    split_on_char c l = [l] := by
  induction l with
  | nil => rfl
  | cons a t ih =>
    have ha : ¬a = c := fun hac => h (hac ▸ List.mem_cons_self a t)
    have ht : c ∉ t := fun hct => h (List.mem_cons_of_mem a hct)
    rw [split_on_char.eq_def]
    simp only [if_neg ha]
    rw [ih ht]

theorem split_on_char_append (c : Char) (l1 l2 : List Char) (h : c ∉ l1) :
    split_on_char c (l1 ++ c :: l2) = l1 :: split_on_char c l2 := by
  induction l1 with
  | nil => simp [split_on_char]
  | cons a t ih =>
    have ha : ¬a = c := fun hac => h (hac ▸ List.mem_cons_self a t)
    have ht : c ∉ t := fun hct => h (List.mem_cons_of_mem a hct)
    rw [List.cons_append, split_on_char.eq_def]
    simp only [if_neg ha]
    rw [ih ht]

theorem parse_nat_pad2 (n : Nat) (hn : n < 100) : parse_nat (pad2c n) = n := by
  have h1 : n / 10 < 10 := by omega
  have h2 : n % 10 < 10 := by omega
  simp only [parse_nat, pad2c, List.foldl_cons, List.foldl_nil,
    digitChar_toNat _ h1, digitChar_toNat _ h2]
  omega

theorem takeWhile_no_dot (l : List Char) (h : ∀ x ∈ l, x ≠ '.') :
    l.takeWhile (fun c => !(c == '.')) = l := by
  induction l with
  | nil => rfl
  | cons a t ih =>
    have ha : (a == '.') = false := by
      simpa using h a (List.mem_cons_self a t)
    simp only [List.takeWhile_cons, ha, Bool.not_false, if_true]
    rw [ih (fun x hx => h x (List.mem_cons_of_mem a hx))]

theorem takeWhile_until_dot (l1 l2 : List Char) (h : ∀ x ∈ l1, x ≠ '.') :
    (l1 ++ '.' :: l2).takeWhile (fun c => !(c == '.')) = l1 := by
  induction l1 with
  | nil => simp [List.takeWhile_cons]
  | cons a t ih =>
    have ha : (a == '.') = false := by
      simpa using h a (List.mem_cons_self a t)
    simp only [List.cons_append, List.takeWhile_cons, ha, Bool.not_false, if_true]
    rw [ih (fun x hx => h x (List.mem_cons_of_mem a hx))]

theorem colon_not_mem_pad2c (n : Nat) (hn : n < 100) : ':' ∉ pad2c n := by
  have h1 : n / 10 < 10 := by omega
  have h2 : n % 10 < 10 := by omega
  simp only [pad2c, List.mem_cons, List.not_mem_nil, or_false]
  exact fun hc => hc.elim (fun he => digitChar_ne_colon _ h1 he.symm)
    (fun he => digitChar_ne_colon _ h2 he.symm)

theorem dot_not_mem_pad2c (n : Nat) (hn : n < 100) : ∀ x ∈ pad2c n, x ≠ '.' := by
  have h1 : n / 10 < 10 := by omega
  have h2 : n % 10 < 10 := by omega
  intro x hx
  simp only [pad2c, List.mem_cons, List.not_mem_nil, or_false] at hx
  rcases hx with rfl | rfl
  · exact digitChar_ne_dot _ h1
  · exact digitChar_ne_dot _ h2

theorem colon_not_mem_pad3c (n : Nat) (hn : n < 1000) : ':' ∉ pad3c n := by
  have h1 : n / 100 < 10 := by omega
  have h2 : n / 10 % 10 < 10 := by omega
  have h3 : n % 10 < 10 := by omega
  simp only [pad3c, List.mem_cons, List.not_mem_nil, or_false]
  intro hc
  rcases hc with he | he | he
  · exact digitChar_ne_colon _ h1 he.symm
  · exact digitChar_ne_colon _ h2 he.symm
  · exact digitChar_ne_colon _ h3 he.symm

theorem dot_not_mem_pad3c (n : Nat) (hn : n < 1000) : ∀ x ∈ pad3c n, x ≠ '.' := by
  have h1 : n / 100 < 10 := by omega
  have h2 : n / 10 % 10 < 10 := by omega
  have h3 : n % 10 < 10 := by omega
  intro x hx
  simp only [pad3c, List.mem_cons, List.not_mem_nil, or_false] at hx
  rcases hx with rfl | rfl | rfl
  · exact digitChar_ne_dot _ h1
  · exact digitChar_ne_dot _ h2
  · exact digitChar_ne_dot _ h3

/-- C9: the code's `timestamp_to_seconds` computes
`hours*3600 + minutes*60 + floor(seconds)` on every `HH:MM:SS` citation
(with or without an `.mmm` fraction, whose floor drops it), and with
`video_id = "abc123"` the post-processor rewrites `[00:01:05]` into a
deep link whose `t` parameter is 65, keeping the bracketed timestamp as
anchor text. -/
theorem c9_citation_linking :
    (∀ h m s : Nat, h < 100 → m < 100 → s < 100 →
      timestamp_to_seconds (format_hms h m s) = h * 3600 + m * 60 + s) ∧
    (∀ h m s f : Nat, h < 100 → m < 100 → s < 100 → f < 1000 →
      timestamp_to_seconds (format_hms_frac h m s f) = h * 3600 + m * 60 + s) ∧
    post_process_answer ⟨some "abc123", none, none, fun _ _ => 0, 0⟩ []
        "The speaker explains this at [00:01:05] in the video." =
      ("The speaker explains this at [00:01:05](https://youtu.be/abc123?t=65) in the video.",
       ["00:01:05"]) := by
  refine ⟨?_, ?_, by decide⟩
  · intro h m s hh hm hs
    have htl : (format_hms h m s).toList =
        pad2c h ++ ':' :: (pad2c m ++ ':' :: pad2c s) := rfl
    simp only [timestamp_to_seconds, htl]
    rw [split_on_char_append ':' (pad2c h) _ (colon_not_mem_pad2c h hh),
      split_on_char_append ':' (pad2c m) _ (colon_not_mem_pad2c m hm),
      split_on_char_of_not_mem ':' (pad2c s) (colon_not_mem_pad2c s hs)]
    simp only [parse_int_float]
    rw [takeWhile_no_dot _ (dot_not_mem_pad2c s hs),
      parse_nat_pad2 h hh, parse_nat_pad2 m hm, parse_nat_pad2 s hs]
  · intro h m s f hh hm hs hf
    have htl : (format_hms_frac h m s f).toList =
        pad2c h ++ ':' :: (pad2c m ++ ':' :: (pad2c s ++ '.' :: pad3c f)) := rfl
    have hcolon : ':' ∉ pad2c s ++ '.' :: pad3c f := by
      intro hc
      rcases List.mem_append.mp hc with hc | hc
      · exact colon_not_mem_pad2c s hs hc
      · rcases List.mem_cons.mp hc with hc | hc
        · exact absurd hc.symm (by decide)
        · exact colon_not_mem_pad3c f hf hc
    simp only [timestamp_to_seconds, htl]
    rw [split_on_char_append ':' (pad2c h) _ (colon_not_mem_pad2c h hh),
      split_on_char_append ':' (pad2c m) _ (colon_not_mem_pad2c m hm),
      split_on_char_of_not_mem ':' _ hcolon]
    simp only [parse_int_float]
    rw [takeWhile_until_dot _ _ (dot_not_mem_pad2c s hs),
      parse_nat_pad2 h hh, parse_nat_pad2 m hm, parse_nat_pad2 s hs]

/-- Witness for C9 at the spec's concrete citation `00:01:05` (and its
fractional variant), via the theorem. -/
theorem c9_witness :
    timestamp_to_seconds (format_hms 0 1 5) = 0 * 3600 + 1 * 60 + 5 ∧
    timestamp_to_seconds (format_hms_frac 0 1 5 123) = 0 * 3600 + 1 * 60 + 5 :=
  ⟨c9_citation_linking.1 0 1 5 (by decide) (by decide) (by decide),
   c9_citation_linking.2.1 0 1 5 123 (by decide) (by decide) (by decide) (by decide)⟩

/-! ## Claim C4: context budget -/

theorem str_append_empty (a : String) : a ++ "" = a := by
  apply String.ext
  rw [String.data_append]
  exact List.append_nil _

theorem str_empty_append (a : String) : "" ++ a = a := by
  apply String.ext
  rw [String.data_append]
  rfl

theorem str_append_assoc (a b c : String) : a ++ b ++ c = a ++ (b ++ c) := by
  apply String.ext
  rw [String.data_append, String.data_append, String.data_append, String.data_append]
  exact List.append_assoc _ _ _

theorem str_length_append (a b : String) : (a ++ b).length = a.length + b.length := by
  show (a ++ b).data.length = a.data.length + b.data.length
  rw [String.data_append, List.length_append]

theorem py_strip_length_le (s : String) : (py_strip s).length ≤ s.length := by
  simp only [py_strip, py_strip_list, String.length]
  calc ((s.data.dropWhile isPySpace).reverse.dropWhile isPySpace).reverse.length
      = ((s.data.dropWhile isPySpace).reverse.dropWhile isPySpace).length := by
        rw [List.length_reverse]
    _ ≤ (s.data.dropWhile isPySpace).reverse.length :=
        (List.dropWhile_sublist _).length_le
    _ = (s.data.dropWhile isPySpace).length := by rw [List.length_reverse]
    _ ≤ s.data.length := (List.dropWhile_sublist _).length_le

theorem take_blocks_length_le (l : List Chunk) :
    ∀ (max_chars : Int) (acc : String), (acc.length : Int) ≤ max_chars →
      ((take_blocks max_chars acc l).length : Int) ≤ max_chars := by
  induction l with
  | nil => intro max_chars acc hacc; exact hacc
  | cons ch rest ih =>
    intro max_chars acc hacc
    simp only [take_blocks]
    split
    · exact hacc
    · rename_i hfit
      apply ih
      rw [str_length_append]
      push_cast
      omega

theorem take_blocks_eq_whole_blocks (l : List Chunk) :
    ∀ (max_chars : Int) (acc : String), ∃ n : Nat,
      take_blocks max_chars acc l = acc ++ blocks_concat (l.take n) := by
  induction l with
  | nil =>
    intro max_chars acc
    exact ⟨0, by simp [take_blocks, blocks_concat, str_append_empty]⟩
  | cons ch rest ih =>
    intro max_chars acc
    simp only [take_blocks]
    split
    · exact ⟨0, by simp [blocks_concat, str_append_empty]⟩
    · obtain ⟨n, hn⟩ := ih max_chars (acc ++ chunk_block ch)
      refine ⟨n + 1, ?_⟩
      rw [hn, List.take_succ_cons]
      show _ = acc ++ blocks_concat (ch :: rest.take n)
      rw [blocks_concat, str_append_assoc]

/-- C4 (amended): for every store, timestamp filter and non-negative
`max_chars`, the returned context has length at most `max_chars`, and it
is the `strip()` of a concatenation of whole leading blocks of the
considered chunk sequence — no chunk is ever split by the budget; only
the final `strip()` may shave trailing whitespace (in particular the
closing `"\n\n"`) off the last included block. -/
theorem c4_context_budget (tc : List Chunk) (timestamps : List String)
    (max_chars : Int) (hmax : 0 ≤ max_chars) :
    ((get_transcript_context tc timestamps max_chars).length : Int) ≤ max_chars ∧
    ∃ n : Nat, get_transcript_context tc timestamps max_chars =
      py_strip (blocks_concat ((ordered_chunks tc timestamps).take n)) := by
  constructor
  · calc ((get_transcript_context tc timestamps max_chars).length : Int)
        ≤ ((take_blocks max_chars "" (ordered_chunks tc timestamps)).length : Int) := by
          exact_mod_cast py_strip_length_le _
      _ ≤ max_chars := take_blocks_length_le _ _ _ (by simpa using hmax)
  · obtain ⟨n, hn⟩ := take_blocks_eq_whole_blocks (ordered_chunks tc timestamps) max_chars ""
    refine ⟨n, ?_⟩
    unfold get_transcript_context
    rw [hn, str_empty_append]

/-- Witness for C4 at a concrete store and budget, via the theorem. -/
theorem c4_witness :
    ((get_transcript_context [⟨0, "00:00:00", "00:00:05", "hello"⟩] [] 8000).length : Int)
      ≤ 8000 :=
  (c4_context_budget [⟨0, "00:00:00", "00:00:05", "hello"⟩] [] 8000 (by decide)).1

/-- C4 counterexample: the final `strip()` removes the `"\n\n"`
terminator of the last included block, so that block does not appear
whole even though its chunk is included; and for a negative `max_chars`
the length bound fails (`len("") = 0 > -1`). -/
theorem c4_counterexample :
    get_transcript_context [⟨0, "00:00:00", "00:00:05", "hello"⟩] [] 8000 =
      "[00:00:00 - 00:00:05] hello" ∧
    contains_sub (get_transcript_context [⟨0, "00:00:00", "00:00:05", "hello"⟩] [] 8000)
      (chunk_block ⟨0, "00:00:00", "00:00:05", "hello"⟩) = false ∧
    get_transcript_context [⟨0, "00:00:00", "00:00:05", "hello"⟩] [] (-1) = "" ∧
    ¬ ((get_transcript_context [⟨0, "00:00:00", "00:00:05", "hello"⟩] [] (-1)).length : Int)
        ≤ -1 := by
  refine ⟨by decide, by decide, by decide, by decide⟩

/-! ## Claim C7: timestamp-filtered chunk selection -/

theorem count_filter_eq (p : Chunk → Bool) (a : Chunk) (l : List Chunk) :
    (l.filter p).count a = if p a then l.count a else 0 := by
  induction l with
  | nil => simp
  | cons b t ih =>
    by_cases hpb : p b = true
    · by_cases hba : b = a
      · subst hba
        simp [List.filter_cons, hpb, List.count_cons, ih]
      · simp [List.filter_cons, hpb, List.count_cons, ih, hba]
    · by_cases hba : b = a
      · subst hba
        simp [List.filter_cons, hpb, List.count_cons, ih]
      · simp [List.filter_cons, hpb, List.count_cons, ih, hba]

theorem count_filtered_chunks (tc : List Chunk) (timestamps : List String)
    (ch : Chunk) :
    (filtered_chunks tc timestamps).count ch =
      (timestamps.countP
        (fun t => py_str_le ch.start_time t && py_str_le t ch.end_time)) *
        tc.count ch := by
  induction timestamps with
  | nil => simp [filtered_chunks]
  | cons t rest ih =>
    simp only [filtered_chunks, List.flatMap_cons, List.count_append,
      List.countP_cons] at ih ⊢
    rw [count_filter_eq, ih]
    by_cases hq : (py_str_le ch.start_time t && py_str_le t ch.end_time) = true
    · simp [hq, Nat.add_mul, Nat.add_comm]
    · simp [hq]

/-- C7 (amended): with a non-empty timestamp set, the chunk sequence
considered before truncation consists of exactly the stored chunks whose
`[start_time, end_time]` interval (lexicographic string comparison)
contains at least one requested timestamp, in ascending `index` order —
but a chunk appears once per requested timestamp it contains (so it is
duplicated when several timestamps hit the same chunk), not exactly
once. -/
theorem c7_filtered_selection (tc : List Chunk) (timestamps : List String)
    (hne : timestamps ≠ []) :
    (∀ ch : Chunk, ch ∈ ordered_chunks tc timestamps ↔
      ch ∈ tc ∧ ∃ t ∈ timestamps,
        py_str_le ch.start_time t = true ∧ py_str_le t ch.end_time = true) ∧
    ((ordered_chunks tc timestamps).map Chunk.index).Sorted (· ≤ ·) ∧
    (∀ ch : Chunk, (ordered_chunks tc timestamps).count ch =
      (timestamps.countP
        (fun t => py_str_le ch.start_time t && py_str_le t ch.end_time)) *
        tc.count ch) := by
  have hemp : timestamps.isEmpty = false := by
    cases timestamps with
    | nil => exact absurd rfl hne
    | cons a l => rfl
  have hord : ordered_chunks tc timestamps =
      List.insertionSort (fun a b : Chunk => a.index ≤ b.index)
        (filtered_chunks tc timestamps) := by
    simp [ordered_chunks, hemp]
  have hperm := List.perm_insertionSort
    (fun a b : Chunk => a.index ≤ b.index) (filtered_chunks tc timestamps)
  refine ⟨?_, ?_, ?_⟩
  · intro ch
    rw [hord, hperm.mem_iff]
    simp only [filtered_chunks, List.mem_flatMap, List.mem_filter,
      Bool.and_eq_true]
    constructor
    · rintro ⟨t, ht, hmem, h1, h2⟩
      exact ⟨hmem, t, ht, h1, h2⟩
    · rintro ⟨hmem, t, ht, h1, h2⟩
      exact ⟨t, ht, hmem, h1, h2⟩
  · rw [hord]
    have hs := List.sorted_insertionSort
      (fun a b : Chunk => a.index ≤ b.index) (filtered_chunks tc timestamps)
    exact List.pairwise_map.mpr hs
  · intro ch
    rw [hord, hperm.count_eq ch]
    exact count_filtered_chunks tc timestamps ch

/-- Witness for C7 at a concrete store and timestamp set, via the
theorem. -/
theorem c7_witness :
    (⟨0, "00:00:00", "00:00:10", "t"⟩ : Chunk) ∈
      ordered_chunks [⟨0, "00:00:00", "00:00:10", "t"⟩] ["00:00:01"] ∧
    ((ordered_chunks [⟨0, "00:00:00", "00:00:10", "t"⟩] ["00:00:01"]).map
      Chunk.index).Sorted (· ≤ ·) := by
  have h := c7_filtered_selection [⟨0, "00:00:00", "00:00:10", "t"⟩] ["00:00:01"]
    (by decide)
  exact ⟨(h.1 _).mpr ⟨by decide, "00:00:01", by decide, by decide, by decide⟩, h.2.1⟩

/-- C7 counterexample: two requested timestamps inside the same chunk
make the chunk appear twice in the considered sequence, refuting the
"each such chunk appearing exactly once" part of the claim. -/
theorem c7_counterexample :
    (ordered_chunks [⟨0, "00:00:00", "00:00:10", "t"⟩]
        ["00:00:01", "00:00:02"]).count ⟨0, "00:00:00", "00:00:10", "t"⟩ = 2 := by
  decide

/-! ## Claim C10: history writes happen only on the success path -/

theorem strip_backfill (enc : String → List ℚ) (qa : QAPair) :
    strip_embedding (backfill_embedding enc qa) = strip_embedding qa := by
  cases qa with
  | mk q a ts t emb => cases emb <;> rfl

theorem get_related_qa_cache_strip (cfg : Config) (qc : List QAPair)
    (q : String) (k : Nat) :
    ((get_related_qa cfg qc q k).2).map strip_embedding =
      qc.map strip_embedding := by
  unfold get_related_qa
  split
  · rfl
  · cases cfg.encode with
    | none => rfl
    | some enc =>
      show ((qc.map (backfill_embedding enc)).map strip_embedding) = _
      rw [List.map_map]
      exact List.map_congr_left (fun qa _ => strip_backfill enc qa)

theorem build_single_prompt_cache_strip (cfg : Config) (st : CacheState)
    (q : String) :
    ((build_single_prompt cfg st q).2).map strip_embedding =
      st.qa_cache.map strip_embedding := by
  unfold build_single_prompt
  cases cfg.google_cache_id with
  | none => exact get_related_qa_cache_strip cfg st.qa_cache q 3
  | some cid =>
    show ((get_related_qa cfg (create_prompt cfg st q).2 q 3).2).map
        strip_embedding = _
    rw [get_related_qa_cache_strip]
    exact get_related_qa_cache_strip cfg st.qa_cache q 3

/-- C10 (amended): a failed remote call yields the failure record and
appends nothing to the QA history — its length and every record's
question/answer/timestamps/time are unchanged (prompt construction may
only backfill cached embeddings on existing records); the `add_qa_pair`
write happens exactly on the success path, appending the post-processed
exchange. -/
theorem c10_history_write_only_on_success (cfg : Config) (st : CacheState)
    (q e raw : String) :
    ((process_single_question_async cfg st q (.error e)).1 = .fail q e ∧
     (process_single_question_async cfg st q (.error e)).2.transcript_cache =
       st.transcript_cache ∧
     (process_single_question_async cfg st q (.error e)).2.qa_cache.map
       strip_embedding = st.qa_cache.map strip_embedding) ∧
    (process_single_question_async cfg st q (.ok raw)).2.qa_cache.map
        strip_embedding =
      st.qa_cache.map strip_embedding ++
        [⟨q, (post_process_answer cfg st.transcript_cache raw).1,
            (post_process_answer cfg st.transcript_cache raw).2, cfg.now, none⟩] := by
  refine ⟨⟨rfl, rfl, build_single_prompt_cache_strip cfg st q⟩, ?_⟩
  show ((build_single_prompt cfg st q).2 ++
      [(⟨q, (post_process_answer cfg st.transcript_cache raw).1,
          (post_process_answer cfg st.transcript_cache raw).2, cfg.now, none⟩ : QAPair)]).map
      strip_embedding = _
  rw [List.map_append, build_single_prompt_cache_strip cfg st q]
  rfl

/-- C10 counterexample: with the embedding model available and an
existing record lacking its embedding, a failed question still mutates
the QA history (the prompt construction backfills the embedding), so the
history is not literally unchanged. -/
theorem c10_counterexample :
    (process_single_question_async
        ⟨none, none, some (fun _ => [1]), fun _ _ => 0, 0⟩
        ⟨[], [⟨"old q", "old a", [], 0, none⟩]⟩
        "new q" (.error "boom")).1 = .fail "new q" "boom" ∧
    (process_single_question_async
        ⟨none, none, some (fun _ => [1]), fun _ _ => 0, 0⟩
        ⟨[], [⟨"old q", "old a", [], 0, none⟩]⟩
        "new q" (.error "boom")).2.qa_cache ≠
      [⟨"old q", "old a", [], 0, none⟩] := by
  decide

/-! ## Claim C1: independent-batch completeness and isolation -/

theorem process_single_record_eq (cfg : Config) (st : CacheState) (q : String)
    (o : Except String String) :
    (process_single_question_async cfg st q o).1 =
      single_record cfg st.transcript_cache q o := by
  cases o <;> rfl

theorem process_single_transcript_eq (cfg : Config) (st : CacheState)
    (q : String) (o : Except String String) :
    (process_single_question_async cfg st q o).2.transcript_cache =
      st.transcript_cache := by
  cases o <;> rfl

theorem single_record_question (cfg : Config) (tc : List Chunk) (q : String)
    (o : Except String String) : (single_record cfg tc q o).question = q := by
  cases o <;> rfl

theorem process_batch_seq_length (cfg : Config)
    (call : Nat → Except String String) :
    ∀ (qs : List String) (i : Nat) (st : CacheState),
      (process_batch_seq cfg call i st qs).1.length = qs.length := by
  intro qs
  induction qs with
  | nil => intro i st; rfl
  | cons q rest ih =>
    intro i st
    simp only [process_batch_seq, List.length_cons]
    rw [ih]

theorem process_batch_seq_getElem (cfg : Config)
    (call : Nat → Except String String) :
    ∀ (qs : List String) (i : Nat) (st : CacheState) (j : Nat),
      (process_batch_seq cfg call i st qs).1[j]? =
        (qs[j]?).map
          (fun q => single_record cfg st.transcript_cache q (call (i + j))) := by
  intro qs
  induction qs with
  | nil => intro i st j; simp [process_batch_seq]
  | cons q rest ih =>
    intro i st j
    cases j with
    | zero =>
      simp only [process_batch_seq, List.getElem?_cons_zero, Nat.add_zero]
      rw [process_single_record_eq]
      rfl
    | succ j =>
      simp only [process_batch_seq, List.getElem?_cons_succ]
      rw [ih (i + 1) (process_single_question_async cfg st q (call i)).2 j,
        process_single_transcript_eq]
      have harith : i + 1 + j = i + (j + 1) := by omega
      rw [harith]

theorem process_batch_seq_append (cfg : Config)
    (call : Nat → Except String String) :
    ∀ (a b : List String) (i : Nat) (st : CacheState),
      process_batch_seq cfg call i st (a ++ b) =
        ((process_batch_seq cfg call i st a).1 ++
          (process_batch_seq cfg call (i + a.length)
            (process_batch_seq cfg call i st a).2 b).1,
         (process_batch_seq cfg call (i + a.length)
            (process_batch_seq cfg call i st a).2 b).2) := by
  intro a
  induction a with
  | nil => intro b i st; simp [process_batch_seq]
  | cons q rest ih =>
    intro b i st
    have hstep : ∀ (tail : List String) (st' : CacheState),
        process_batch_seq cfg call i st' (q :: tail) =
          ((process_single_question_async cfg st' q (call i)).1 ::
            (process_batch_seq cfg call (i + 1)
              (process_single_question_async cfg st' q (call i)).2 tail).1,
           (process_batch_seq cfg call (i + 1)
              (process_single_question_async cfg st' q (call i)).2 tail).2) :=
      fun _ _ => rfl
    rw [List.cons_append, hstep (rest ++ b) st, hstep rest st,
      ih b (i + 1) (process_single_question_async cfg st q (call i)).2]
    have harith : i + 1 + rest.length = i + (rest.length + 1) := by omega
    simp only [List.length_cons, List.cons_append, harith]

theorem process_batch_groups_join (cfg : Config)
    (call : Nat → Except String String) :
    ∀ (bs : List (List String)) (i : Nat) (st : CacheState),
      process_batch_groups cfg call i st bs =
        process_batch_seq cfg call i st bs.flatten := by
  intro bs
  induction bs with
  | nil => intro i st; rfl
  | cons b rest ih =>
    intro i st
    simp only [process_batch_groups, List.flatten_cons]
    rw [ih (i + b.length) (process_batch_seq cfg call i st b).2,
      process_batch_seq_append]

theorem to_batches_flatten (l : List String) : (to_batches l).flatten = l := by
  suffices h : ∀ (n : Nat) (l : List String), l.length = n →
      (to_batches l).flatten = l by
    exact h l.length l rfl
  intro n
  induction n using Nat.strong_induction_on with
  | _ n ih =>
    intro l hl
    rw [to_batches]
    split
    · rename_i hnil
      subst hnil
      rfl
    · rename_i hnil
      have hlen : (l.drop 10).length < n := by
        have hne : l.length ≠ 0 := fun h0 => hnil (List.eq_nil_of_length_eq_zero h0)
        simp only [List.length_drop]
        omega
      rw [List.flatten_cons, ih _ hlen (l.drop 10) rfl, List.take_append_drop]

theorem process_batch_async_eq_seq (cfg : Config)
    (call : Nat → Except String String) (st : CacheState) (qs : List String) :
    process_batch_async cfg call st qs = process_batch_seq cfg call 0 st qs := by
  unfold process_batch_async
  rw [process_batch_groups_join, to_batches_flatten]

/-- C1: the independent-batch orchestrator returns exactly one result per
question, in input order (result `j` carries question `j`); a question
whose remote call raises yields the failure record `{question, error,
success: false}` at its own position; and the result of every other
question is unaffected by that outcome — changing the oracle at position
`k` alone changes no result at a position `j ≠ k`. -/
theorem c1_batch_completeness (cfg : Config)
    (call call' : Nat → Except String String) (st : CacheState)
    (qs : List String) (k : Nat) (e : String) :
    (process_batch_async cfg call st qs).1.length = qs.length ∧
    (∀ j : Nat, ((process_batch_async cfg call st qs).1[j]?).map BResult.question
      = qs[j]?) ∧
    (call k = .error e →
      (process_batch_async cfg call st qs).1[k]? =
        (qs[k]?).map (fun q => BResult.fail q e)) ∧
    ((∀ j, j ≠ k → call' j = call j) →
      ∀ j, j ≠ k →
        (process_batch_async cfg call' st qs).1[j]? =
          (process_batch_async cfg call st qs).1[j]?) := by
  refine ⟨?_, ?_, ?_, ?_⟩
  · rw [process_batch_async_eq_seq]
    exact process_batch_seq_length cfg call qs 0 st
  · intro j
    rw [process_batch_async_eq_seq, process_batch_seq_getElem]
    rw [Option.map_map]
    have : (BResult.question ∘ fun q =>
        single_record cfg st.transcript_cache q (call (0 + j))) = id := by
      funext q
      exact single_record_question cfg st.transcript_cache q (call (0 + j))
    rw [this, Option.map_id]
    rfl
  · intro hk
    rw [process_batch_async_eq_seq, process_batch_seq_getElem, Nat.zero_add, hk]
    rfl
  · intro hagree j hj
    rw [process_batch_async_eq_seq, process_batch_async_eq_seq,
      process_batch_seq_getElem, process_batch_seq_getElem, Nat.zero_add,
      hagree j hj]

/-- Witness for C1: a concrete two-question batch where the second call
raises; the failure record lands at position 1 and position 0 is
unchanged when the failing call is swapped for a success, via the
theorem. -/
theorem c1_witness :
    (process_batch_async ⟨none, none, none, fun _ _ => 0, 0⟩
        (fun n => if n = 1 then .error "boom" else .ok "fine")
        ⟨[], []⟩ ["a", "b"]).1[1]? = some (.fail "b" "boom") ∧
    (process_batch_async ⟨none, none, none, fun _ _ => 0, 0⟩
        (fun _ => .ok "fine") ⟨[], []⟩ ["a", "b"]).1[0]? =
      (process_batch_async ⟨none, none, none, fun _ _ => 0, 0⟩
        (fun n => if n = 1 then .error "boom" else .ok "fine")
        ⟨[], []⟩ ["a", "b"]).1[0]? := by
  have h := c1_batch_completeness ⟨none, none, none, fun _ _ => 0, 0⟩
    (fun n => if n = 1 then .error "boom" else .ok "fine")
    (fun _ => .ok "fine") ⟨[], []⟩ ["a", "b"] 1 "boom"
  constructor
  · rw [h.2.2.1 rfl]
    rfl
  · exact h.2.2.2 (fun j hj => by simp [hj]) 0 (by decide)

/-! ## Claim C3: interconnected context growth -/

theorem infix_append_left {x y : List Char} (a : List Char) (h : x <:+: y) :
    x <:+: a ++ y :=
  h.trans (List.suffix_append a y).isInfix

theorem infix_append_right {x y : List Char} (b : List Char) (h : x <:+: y) :
    x <:+: y ++ b :=
  h.trans (List.prefix_append y b).isInfix

theorem qa_block_infix_prev_blocks (pa : PrevAnswer) (prev : List PrevAnswer)
    (h : pa ∈ prev) :
    (qa_block pa.question pa.answer).toList <:+: (prev_blocks prev).toList := by
  induction prev with
  | nil => cases h
  | cons p rest ih =>
    rw [prev_blocks, string_toList_append]
    rcases List.mem_cons.mp h with rfl | hmem
    · exact infix_append_right _ (List.infix_refl _)
    · exact infix_append_left _ (ih hmem)

theorem pswp_question (cfg : Config) (st : CacheState) (q : String)
    (o : Except String String) :
    ((process_single_question_with_prompt_async cfg st q o).1).question = q := by
  cases o <;> rfl

theorem create_inter_prompt_contains_prev (cfg : Config) (qc : List QAPair)
    (tc : List Chunk) (q : String) (prev : List PrevAnswer) (pa : PrevAnswer)
    (hmem : pa ∈ prev) :
    contains_sub (create_interconnected_prompt cfg qc tc q prev).1
      (qa_block pa.question pa.answer) = true := by
  rw [contains_sub_iff]
  have hne : prev.isEmpty = false := by
    cases prev with
    | nil => cases hmem
    | cons a l => rfl
  simp only [create_interconnected_prompt, hne, Bool.false_eq_true, if_false,
    string_toList_append, List.append_assoc]
  exact infix_append_left _ (infix_append_left _ (infix_append_left _
    (infix_append_left _ (infix_append_left _ (infix_append_right _
      (qa_block_infix_prev_blocks pa prev hmem))))))

theorem inter_go_length (cfg : Config) (call : Nat → Except String String) :
    ∀ (qs : List String) (i : Nat) (st : CacheState) (prev : List PrevAnswer),
      (process_interconnected_go cfg call i st prev qs).1.length = qs.length := by
  intro qs
  induction qs with
  | nil => intro i st prev; rfl
  | cons q rest ih =>
    intro i st prev
    simp only [process_interconnected_go, List.length_cons]
    rw [ih]

theorem inter_go_question (cfg : Config) (call : Nat → Except String String) :
    ∀ (qs : List String) (i : Nat) (st : CacheState) (prev : List PrevAnswer)
      (j : Nat),
      (((process_interconnected_go cfg call i st prev qs).1[j]?).map
        (fun pr => pr.2.question)) = qs[j]? := by
  intro qs
  induction qs with
  | nil => intro i st prev j; simp [process_interconnected_go]
  | cons q rest ih =>
    intro i st prev j
    cases j with
    | zero =>
      simp only [process_interconnected_go, List.getElem?_cons_zero]
      show some ((process_single_question_with_prompt_async cfg
          { st with qa_cache := (create_interconnected_prompt cfg st.qa_cache
              st.transcript_cache q prev).2 } q (call i)).1.question) = some q
      rw [pswp_question]
    | succ j =>
      simp only [process_interconnected_go, List.getElem?_cons_succ]
      exact ih _ _ _ j

theorem inter_go_prompt_contains_prev (cfg : Config)
    (call : Nat → Except String String) :
    ∀ (qs : List String) (i : Nat) (st : CacheState) (prev : List PrevAnswer)
      (k : Nat) (pr : String × BResult) (pa : PrevAnswer),
      pa ∈ prev →
      (process_interconnected_go cfg call i st prev qs).1[k]? = some pr →
      contains_sub pr.1 (qa_block pa.question pa.answer) = true := by
  intro qs
  induction qs with
  | nil => intro i st prev k pr pa _ hk; simp [process_interconnected_go] at hk
  | cons q rest ih =>
    intro i st prev k pr pa hmem hk
    cases k with
    | zero =>
      simp only [process_interconnected_go, List.getElem?_cons_zero] at hk
      cases hk
      exact create_inter_prompt_contains_prev cfg st.qa_cache st.transcript_cache
        q prev pa hmem
    | succ k =>
      simp only [process_interconnected_go, List.getElem?_cons_succ] at hk
      refine ih _ _ _ k pr pa ?_ hk
      cases hr : (process_single_question_with_prompt_async cfg
          { st with qa_cache :=
              (create_interconnected_prompt cfg st.qa_cache st.transcript_cache
                q prev).2 } q (call i)).1 with
      | ok rq ra rts =>
        simp only [hr]
        exact List.mem_append_left _ hmem
      | fail _ _ =>
        simp only [hr]
        exact hmem

theorem inter_go_success_before (cfg : Config)
    (call : Nat → Except String String) :
    ∀ (qs : List String) (i : Nat) (st : CacheState) (prev : List PrevAnswer)
      (j k : Nat) (pj pk : String) (rk : BResult) (qj aj : String)
      (tsj : List String),
      j < k →
      (process_interconnected_go cfg call i st prev qs).1[j]? =
        some (pj, .ok qj aj tsj) →
      (process_interconnected_go cfg call i st prev qs).1[k]? = some (pk, rk) →
      contains_sub pk (qa_block qj aj) = true := by
  intro qs
  induction qs with
  | nil => intro i st prev j k pj pk rk qj aj tsj _ hj _; simp [process_interconnected_go] at hj
  | cons q rest ih =>
    intro i st prev j k pj pk rk qj aj tsj hjk hj hk
    cases k with
    | zero => omega
    | succ k =>
      simp only [process_interconnected_go, List.getElem?_cons_succ] at hk
      cases j with
      | zero =>
        simp only [process_interconnected_go, List.getElem?_cons_zero] at hj
        have hj' := Option.some.inj hj
        have hr : (process_single_question_with_prompt_async cfg
            { st with qa_cache :=
                (create_interconnected_prompt cfg st.qa_cache st.transcript_cache
                  q prev).2 } q (call i)).1 = .ok qj aj tsj :=
          congrArg Prod.snd hj'
        refine inter_go_prompt_contains_prev cfg call rest (i + 1) _ _ k (pk, rk)
          ⟨qj, aj, tsj⟩ ?_ hk
        rw [hr]
        show (⟨qj, aj, tsj⟩ : PrevAnswer) ∈ prev ++ [⟨qj, aj, tsj⟩]
        exact List.mem_append_right _ (List.mem_singleton.mpr rfl)
      | succ j =>
        simp only [process_interconnected_go, List.getElem?_cons_succ] at hj
        exact ih _ _ _ j k pj pk rk qj aj tsj (by omega) hj hk

theorem inter_go_failure_keeps_prev (cfg : Config)
    (call : Nat → Except String String) (i : Nat) (st : CacheState)
    (prev : List PrevAnswer) (q : String) (rest : List String) (e : String)
    (he : call i = .error e) :
    (process_interconnected_go cfg call i st prev (q :: rest)).1 =
      ((create_interconnected_prompt cfg st.qa_cache st.transcript_cache q
          prev).1, .fail q e) ::
        (process_interconnected_go cfg call (i + 1)
          { st with qa_cache := (create_interconnected_prompt cfg st.qa_cache
              st.transcript_cache q prev).2 }
          prev rest).1 := by
  simp only [process_interconnected_go, he, process_single_question_with_prompt_async]

/-- C3: the interconnected orchestrator processes the questions one at a
time in input order (one result per question, result `j` carrying
question `j`); the prompt built for a later question contains, as a
history-labeled `"Q: …\nA: …\n\n"` block, the question and post-processed
answer of every earlier question that succeeded; a failed call is
recorded as a failure result while the shared-context list passed to the
rest of the run is left unchanged; and in the concrete three-question
demonstration run where question 2 fails, its text is absent from the
prompt built for question 3. -/
theorem c3_interconnected_context (cfg : Config)
    (call : Nat → Except String String) (st : CacheState) (qs : List String) :
    (process_interconnected_go cfg call 0 st [] qs).1.length = qs.length ∧
    (∀ j : Nat, (((process_interconnected_go cfg call 0 st [] qs).1[j]?).map
      (fun pr => pr.2.question)) = qs[j]?) ∧
    (∀ (j k : Nat) (pj pk : String) (rk : BResult) (qj aj : String)
      (tsj : List String), j < k →
      (process_interconnected_go cfg call 0 st [] qs).1[j]? =
        some (pj, .ok qj aj tsj) →
      (process_interconnected_go cfg call 0 st [] qs).1[k]? = some (pk, rk) →
      contains_sub pk (qa_block qj aj) = true) ∧
    (∀ (i : Nat) (st' : CacheState) (prev : List PrevAnswer) (q : String)
      (rest : List String) (e : String), call i = .error e →
      (process_interconnected_go cfg call i st' prev (q :: rest)).1 =
        ((create_interconnected_prompt cfg st'.qa_cache st'.transcript_cache q
            prev).1, .fail q e) ::
          (process_interconnected_go cfg call (i + 1)
            { st' with qa_cache := (create_interconnected_prompt cfg
                st'.qa_cache st'.transcript_cache q prev).2 }
            prev rest).1) ∧
    (((process_interconnected_go demo_config demo_call 0 demo_state []
        ["Alpha?", "Bravo?", "Charlie?"]).1.getD 1 ("", .fail "" "")).2 =
      .fail "Bravo?" "boom" ∧
     contains_sub
      (((process_interconnected_go demo_config demo_call 0 demo_state []
        ["Alpha?", "Bravo?", "Charlie?"]).1.getD 2 ("", .fail "" "")).1)
      "Bravo?" = false) := by
  refine ⟨inter_go_length cfg call qs 0 st [],
    inter_go_question cfg call qs 0 st [],
    inter_go_success_before cfg call qs 0 st [],
    fun i st' prev q rest e he =>
      inter_go_failure_keeps_prev cfg call i st' prev q rest e he,
    by decide, by decide⟩

/-- Witness for C3: in the demonstration run, the prompt built for
question 3 contains question 1's block verbatim (via the theorem's
success-block conjunct, with its hypotheses discharged concretely), and
the failed question 2 leaves the shared-context list unchanged (via the
failure conjunct). -/
theorem c3_witness :
    contains_sub
      "Please answer the following question based on the video transcript and previous answers.\nIf the information is not found in the transcript, please indicate this clearly.\n\nIMPORTANT: When referencing information from the transcript, ALWAYS include the timestamp in square brackets like this: [HH:MM:SS]. For example: \"The speaker mentions at [00:01:30] that...\"\n\nVideo Transcript:\n[00:00:00 - 00:00:05] hello\n\nHere are previous questions and answers related to the video:\n\nQ: Alpha?\nA: Answer one at [00:00:01].\n\nHere are the answers to previous questions in this batch:\n\nQ: Alpha?\nA: Answer one at [00:00:01].\n\n\nQuestion: Charlie?\n"
      (qa_block "Alpha?" "Answer one at [00:00:01].") = true ∧
    (process_interconnected_go demo_config demo_call 1
        ⟨[demo_chunk], [⟨"Alpha?", "Answer one at [00:00:01].", ["00:00:01"], 0, none⟩]⟩
        [⟨"Alpha?", "Answer one at [00:00:01].", ["00:00:01"]⟩]
        ["Bravo?", "Charlie?"]).1 =
      ((create_interconnected_prompt demo_config
          (⟨[demo_chunk], [⟨"Alpha?", "Answer one at [00:00:01].", ["00:00:01"], 0, none⟩]⟩ : CacheState).qa_cache
          (⟨[demo_chunk], [⟨"Alpha?", "Answer one at [00:00:01].", ["00:00:01"], 0, none⟩]⟩ : CacheState).transcript_cache
          "Bravo?"
          [⟨"Alpha?", "Answer one at [00:00:01].", ["00:00:01"]⟩]).1,
        .fail "Bravo?" "boom") ::
        (process_interconnected_go demo_config demo_call 2
          { (⟨[demo_chunk], [⟨"Alpha?", "Answer one at [00:00:01].", ["00:00:01"], 0, none⟩]⟩ : CacheState) with
            qa_cache := (create_interconnected_prompt demo_config
              (⟨[demo_chunk], [⟨"Alpha?", "Answer one at [00:00:01].", ["00:00:01"], 0, none⟩]⟩ : CacheState).qa_cache
              (⟨[demo_chunk], [⟨"Alpha?", "Answer one at [00:00:01].", ["00:00:01"], 0, none⟩]⟩ : CacheState).transcript_cache
              "Bravo?"
              [⟨"Alpha?", "Answer one at [00:00:01].", ["00:00:01"]⟩]).2 }
          [⟨"Alpha?", "Answer one at [00:00:01].", ["00:00:01"]⟩] ["Charlie?"]).1 := by
  have h := c3_interconnected_context demo_config demo_call demo_state
    ["Alpha?", "Bravo?", "Charlie?"]
  constructor
  · exact h.2.2.1 0 2
      "Please answer the following question based on the video transcript and previous answers.\nIf the information is not found in the transcript, please indicate this clearly.\n\nIMPORTANT: When referencing information from the transcript, ALWAYS include the timestamp in square brackets like this: [HH:MM:SS]. For example: \"The speaker mentions at [00:01:30] that...\"\n\nVideo Transcript:\n[00:00:00 - 00:00:05] hello\n\n\nQuestion: Alpha?\n"
      "Please answer the following question based on the video transcript and previous answers.\nIf the information is not found in the transcript, please indicate this clearly.\n\nIMPORTANT: When referencing information from the transcript, ALWAYS include the timestamp in square brackets like this: [HH:MM:SS]. For example: \"The speaker mentions at [00:01:30] that...\"\n\nVideo Transcript:\n[00:00:00 - 00:00:05] hello\n\nHere are previous questions and answers related to the video:\n\nQ: Alpha?\nA: Answer one at [00:00:01].\n\nHere are the answers to previous questions in this batch:\n\nQ: Alpha?\nA: Answer one at [00:00:01].\n\n\nQuestion: Charlie?\n"
      (.ok "Charlie?" "Answer three." []) "Alpha?" "Answer one at [00:00:01]."
      ["00:00:01"] (by omega) (by decide) (by decide)
  · exact h.2.2.2.1 1
      ⟨[demo_chunk], [⟨"Alpha?", "Answer one at [00:00:01].", ["00:00:01"], 0, none⟩]⟩
      [⟨"Alpha?", "Answer one at [00:00:01].", ["00:00:01"]⟩]
      "Bravo?" ["Charlie?"] "boom" rfl

/-! ## Claim C8: interconnected prompts and the provider-side cache -/

theorem qa_block_infix_history_blocks (qa : QAPair) (related : List QAPair)
    (h : qa ∈ related) :
    (qa_block qa.question qa.answer).toList <:+: (history_blocks related).toList := by
  induction related with
  | nil => cases h
  | cons p rest ih =>
    rw [history_blocks, string_toList_append]
    rcases List.mem_cons.mp h with rfl | hmem
    · exact infix_append_right _ (List.infix_refl _)
    · exact infix_append_left _ (ih hmem)

theorem qa_block_infix_related_section (qa : QAPair) (related : List QAPair)
    (h : qa ∈ related) :
    (qa_block qa.question qa.answer).toList <:+: (related_section related).toList := by
  have hne : related.isEmpty = false := by
    cases related with
    | nil => cases h
    | cons a l => rfl
  rw [related_section]
  simp only [hne, Bool.false_eq_true, if_false, string_toList_append]
  exact infix_append_left _ (qa_block_infix_history_blocks qa related h)

/-- C8 (amended): in interconnected mode the prompt builder never
consults the provider cache id — even when one is active, the prompt
still contains the transcript body, along with every ranked-history
block, every in-batch prior answer block, and the question.  (The cache
id only sets `cached_content` on the API call configuration.) -/
theorem c8_interconnected_prompt_content (cfg : Config) (qc : List QAPair)
    (tc : List Chunk) (q : String) (prev : List PrevAnswer) :
    contains_sub (create_interconnected_prompt cfg qc tc q prev).1
      (get_transcript_context tc [] 8000) = true ∧
    (∀ pa ∈ prev, contains_sub (create_interconnected_prompt cfg qc tc q prev).1
      (qa_block pa.question pa.answer) = true) ∧
    (∀ qa ∈ (get_related_qa cfg qc q 3).1,
      contains_sub (create_interconnected_prompt cfg qc tc q prev).1
        (qa_block qa.question qa.answer) = true) ∧
    contains_sub (create_interconnected_prompt cfg qc tc q prev).1
      ("Question: " ++ q) = true := by
  refine ⟨?_, ?_, ?_, ?_⟩
  · rw [contains_sub_iff]
    simp only [create_interconnected_prompt, string_toList_append,
      List.append_assoc]
    exact infix_append_left _ (infix_append_right _ (List.infix_refl _))
  · intro pa hpa
    exact create_inter_prompt_contains_prev cfg qc tc q prev pa hpa
  · intro qa hqa
    rw [contains_sub_iff]
    simp only [create_interconnected_prompt, string_toList_append,
      List.append_assoc]
    by_cases hprev : prev.isEmpty
    · simp only [hprev, if_true, string_toList_append, List.append_assoc]
      exact infix_append_left _ (infix_append_left _ (infix_append_left _
        (infix_append_right _ (qa_block_infix_related_section qa _ hqa))))
    · simp only [hprev, Bool.false_eq_true, if_false, string_toList_append,
        List.append_assoc]
      exact infix_append_left _ (infix_append_left _ (infix_append_left _
        (infix_append_right _ (qa_block_infix_related_section qa _ hqa))))
  · rw [contains_sub_iff]
    simp only [create_interconnected_prompt, string_toList_append,
      List.append_assoc]
    refine infix_append_left _ (infix_append_left _ (infix_append_left _
      (infix_append_left _ ?_)))
    show ("Question: " ++ q).toList <:+:
      "\nQuestion: ".toList ++ (q.toList ++ "\n".toList)
    have hsplit : ("\nQuestion: ").toList = '\n' :: ("Question: ").toList := rfl
    rw [hsplit, string_toList_append, List.cons_append, ← List.append_assoc]
    exact List.infix_cons (infix_append_right _ (List.infix_refl _))

/-- Witness for C8 at a concrete prompt build, via the theorem. -/
theorem c8_witness :
    contains_sub (create_interconnected_prompt demo_config [] [demo_chunk] "Q?"
        [⟨"P?", "A.", []⟩]).1 (qa_block "P?" "A.") = true ∧
    contains_sub (create_interconnected_prompt demo_config [] [demo_chunk] "Q?"
        [⟨"P?", "A.", []⟩]).1 ("Question: " ++ "Q?") = true := by
  have h := c8_interconnected_prompt_content demo_config [] [demo_chunk] "Q?"
    [⟨"P?", "A.", []⟩]
  exact ⟨h.2.1 ⟨"P?", "A.", []⟩ (List.mem_singleton.mpr rfl), h.2.2.2⟩

/-- C8 counterexample: with an active provider cache id the
interconnected prompt still contains the transcript body, contradicting
the claim that it omits it (the builder does not look at the cache id at
all). -/
theorem c8_counterexample :
    (⟨none, some "cache-1", none, fun _ _ => 0, 0⟩ : Config).google_cache_id =
      some "cache-1" ∧
    contains_sub (create_interconnected_prompt
        ⟨none, some "cache-1", none, fun _ _ => 0, 0⟩ [] [demo_chunk] "Q?" []).1
      "[00:00:00 - 00:00:05] hello" = true := by
  exact ⟨rfl, by decide⟩

/-! ## Claim C6: blended relevance ranking -/

theorem backfill_embedding_of_some (enc : String → List ℚ) (qa : QAPair)
    (e : List ℚ) (h : qa.embedding = some e) :
    backfill_embedding enc qa = qa := by
  cases qa with
  | mk q a ts t emb =>
    cases emb with
    | some e' => rfl
    | none => cases h

theorem backfill_embedding_embedding (enc : String → List ℚ) (qa : QAPair) :
    (backfill_embedding enc qa).embedding = some (qa_embedding_value enc qa) := by
  cases qa with
  | mk q a ts t emb => cases emb <;> rfl

theorem backfill_embedding_time (enc : String → List ℚ) (qa : QAPair) :
    (backfill_embedding enc qa).time = qa.time := by
  cases qa with
  | mk q a ts t emb => cases emb <;> rfl

theorem qa_embedding_value_of_some (enc : String → List ℚ) (qa : QAPair)
    (e : List ℚ) (h : qa.embedding = some e) :
    qa_embedding_value enc qa = e := by
  rw [qa_embedding_value, h]

theorem qa_score_backfill (cfg : Config) (enc : String → List ℚ)
    (qe : List ℚ) (qa : QAPair) :
    qa_score cfg enc qe (backfill_embedding enc qa) = qa_score cfg enc qe qa := by
  cases qa with
  | mk q a ts t emb => cases emb <;> rfl

theorem time_decay_strict_anti (d1 d2 : ℚ) (h0 : 0 ≤ d2) (h : d2 < d1) :
    time_decay d1 < time_decay d2 := by
  unfold time_decay
  have h1 : (0 : ℚ) < 1 + d2 / 24 := by linarith
  have h2 : 1 + d2 / 24 < 1 + d1 / 24 := by linarith
  exact one_div_lt_one_div_of_lt h1 h2

theorem ranked_scored_qa_sorted (cfg : Config) (enc : String → List ℚ)
    (qc : List QAPair) (q : String) :
    ((ranked_scored_qa cfg enc qc q).map Prod.fst).Sorted
      (fun a b : ℚ => b ≤ a) := by
  exact List.pairwise_map.mpr
    (List.sorted_insertionSort (fun a b : ℚ × QAPair => b.1 ≤ a.1) _)

theorem ranked_scored_qa_score_formula (cfg : Config) (enc : String → List ℚ)
    (qc : List QAPair) (q : String) :
    ∀ p ∈ ranked_scored_qa cfg enc qc q, ∃ e : List ℚ,
      p.2.embedding = some e ∧
      p.1 = 0.7 * cfg.cosine_similarity (enc q) e +
        0.3 * time_decay (cfg.now - p.2.time) := by
  intro p hp
  have hperm := List.perm_insertionSort
    (fun a b : ℚ × QAPair => b.1 ≤ a.1)
    (qc.map (fun qa =>
      (qa_score cfg enc (enc q) (backfill_embedding enc qa),
       backfill_embedding enc qa)))
  have hp' : p ∈ qc.map (fun qa =>
      (qa_score cfg enc (enc q) (backfill_embedding enc qa),
       backfill_embedding enc qa)) := hperm.mem_iff.mp hp
  rcases List.mem_map.mp hp' with ⟨qa, _, rfl⟩
  refine ⟨qa_embedding_value enc qa, backfill_embedding_embedding enc qa, ?_⟩
  simp only [qa_score_backfill, backfill_embedding_time]
  simp only [qa_score, time_decay]
  ring

theorem two_pair_rank (cfg : Config) (f : String → List ℚ) (q : String)
    (p1 p2 : QAPair) (e1 e2 : List ℚ) (henc : cfg.encode = some f)
    (he1 : p1.embedding = some e1) (he2 : p2.embedding = some e2) :
    (qa_score cfg f (f q) p1 < qa_score cfg f (f q) p2 →
      (get_related_qa cfg [p1, p2] q 3).1 = [p2, p1]) ∧
    (qa_score cfg f (f q) p1 = qa_score cfg f (f q) p2 →
      (get_related_qa cfg [p1, p2] q 3).1 = [p1, p2]) := by
  have hb1 := backfill_embedding_of_some f p1 e1 he1
  have hb2 := backfill_embedding_of_some f p2 e2 he2
  have hred : (get_related_qa cfg [p1, p2] q 3).1 =
      ((List.insertionSort (fun a b : ℚ × QAPair => b.1 ≤ a.1)
        [(qa_score cfg f (f q) p1, p1), (qa_score cfg f (f q) p2, p2)]).take 3).map
        Prod.snd := by
    simp only [get_related_qa, List.isEmpty_cons, henc]
    simp only [ranked_scored_qa, List.map_cons, List.map_nil, hb1, hb2]
    rfl
  constructor
  · intro hlt
    rw [hred]
    simp only [List.insertionSort, List.orderedInsert]
    rw [if_neg (not_le.mpr hlt)]
    rfl
  · intro heq
    rw [hred]
    simp only [List.insertionSort, List.orderedInsert]
    rw [if_pos (le_of_eq heq.symm)]
    rfl

/-- C6: on the primary (embedding) path the ranker orders the history by
descending blended score `0.7 × cosine_similarity + 0.3 × time_decay`,
`time_decay(Δh) = 1 / (1 + Δh/24)`: the ranked scores are descending,
every score obeys the blended formula, the ranked output is the stably
sorted scored history truncated to `max_pairs`; for two pairs with equal
similarity the more recently created one ranks strictly higher, and an
exact tie in the blended score keeps insertion order. -/
theorem c6_blended_ranking (cfg : Config) (f : String → List ℚ)
    (qc : List QAPair) (q : String) (p1 p2 : QAPair) (e1 e2 : List ℚ) :
    (cfg.encode = some f → qc ≠ [] →
      (get_related_qa cfg qc q 3).1 =
        ((ranked_scored_qa cfg f qc q).take 3).map Prod.snd) ∧
    ((ranked_scored_qa cfg f qc q).map Prod.fst).Sorted
      (fun a b : ℚ => b ≤ a) ∧
    (∀ p ∈ ranked_scored_qa cfg f qc q, ∃ e : List ℚ,
      p.2.embedding = some e ∧
      p.1 = 0.7 * cfg.cosine_similarity (f q) e +
        0.3 * time_decay (cfg.now - p.2.time)) ∧
    (cfg.encode = some f → p1.embedding = some e1 → p2.embedding = some e2 →
      cfg.cosine_similarity (f q) e1 = cfg.cosine_similarity (f q) e2 →
      p1.time < p2.time → p2.time ≤ cfg.now →
      (get_related_qa cfg [p1, p2] q 3).1 = [p2, p1]) ∧
    (cfg.encode = some f → p1.embedding = some e1 → p2.embedding = some e2 →
      qa_score cfg f (f q) p1 = qa_score cfg f (f q) p2 →
      (get_related_qa cfg [p1, p2] q 3).1 = [p1, p2]) := by
  refine ⟨?_, ranked_scored_qa_sorted cfg f qc q,
    ranked_scored_qa_score_formula cfg f qc q, ?_, ?_⟩
  · intro henc hne
    have hemp : qc.isEmpty = false := by
      cases qc with
      | nil => exact absurd rfl hne
      | cons a l => rfl
    simp only [get_related_qa, hemp, Bool.false_eq_true, if_false, henc]
  · intro henc he1 he2 hsim ht hnow
    have hlt : qa_score cfg f (f q) p1 < qa_score cfg f (f q) p2 := by
      have hv1 := qa_embedding_value_of_some f p1 e1 he1
      have hv2 := qa_embedding_value_of_some f p2 e2 he2
      have hd := time_decay_strict_anti (cfg.now - p1.time) (cfg.now - p2.time)
        (by linarith) (by linarith)
      simp only [qa_score, hv1, hv2, hsim]
      simp only [time_decay] at hd
      nlinarith [hd]
    exact (two_pair_rank cfg f q p1 p2 e1 e2 henc he1 he2).1 hlt
  · intro henc he1 he2 heq
    exact (two_pair_rank cfg f q p1 p2 e1 e2 henc he1 he2).2 heq

/-- Witness for C6: at a concrete configuration with an available
embedding model and a constant similarity function, the more recent of
two equal-similarity pairs ranks first, an exact score tie keeps
insertion order, and the primary-path output is the truncated sorted
scored history — all via the theorem. -/
theorem c6_witness :
    (get_related_qa ⟨none, none, some (fun _ => [1]), fun _ _ => 1, 2⟩
        [⟨"q1", "a1", [], 0, some [1]⟩, ⟨"q2", "a2", [], 1, some [1]⟩]
        "q" 3).1 =
      [⟨"q2", "a2", [], 1, some [1]⟩, ⟨"q1", "a1", [], 0, some [1]⟩] ∧
    (get_related_qa ⟨none, none, some (fun _ => [1]), fun _ _ => 1, 2⟩
        [⟨"q1", "a1", [], 0, some [1]⟩, ⟨"q2", "a2", [], 0, some [1]⟩]
        "q" 3).1 =
      [⟨"q1", "a1", [], 0, some [1]⟩, ⟨"q2", "a2", [], 0, some [1]⟩] ∧
    (get_related_qa ⟨none, none, some (fun _ => [1]), fun _ _ => 1, 2⟩
        [⟨"q1", "a1", [], 0, some [1]⟩] "q" 3).1 =
      ((ranked_scored_qa ⟨none, none, some (fun _ => [1]), fun _ _ => 1, 2⟩
        (fun _ => [1]) [⟨"q1", "a1", [], 0, some [1]⟩] "q").take 3).map
        Prod.snd := by
  refine ⟨?_, ?_, ?_⟩
  · exact (c6_blended_ranking
      ⟨none, none, some (fun _ => [1]), fun _ _ => 1, 2⟩ (fun _ => [1])
      [⟨"q1", "a1", [], 0, some [1]⟩, ⟨"q2", "a2", [], 1, some [1]⟩] "q"
      ⟨"q1", "a1", [], 0, some [1]⟩ ⟨"q2", "a2", [], 1, some [1]⟩
      [1] [1]).2.2.2.1 rfl rfl rfl rfl (by decide) (by decide)
  · exact (c6_blended_ranking
      ⟨none, none, some (fun _ => [1]), fun _ _ => 1, 2⟩ (fun _ => [1])
      [⟨"q1", "a1", [], 0, some [1]⟩, ⟨"q2", "a2", [], 0, some [1]⟩] "q"
      ⟨"q1", "a1", [], 0, some [1]⟩ ⟨"q2", "a2", [], 0, some [1]⟩
      [1] [1]).2.2.2.2 rfl rfl rfl rfl
  · exact (c6_blended_ranking
      ⟨none, none, some (fun _ => [1]), fun _ _ => 1, 2⟩ (fun _ => [1])
      [⟨"q1", "a1", [], 0, some [1]⟩] "q"
      ⟨"q1", "a1", [], 0, some [1]⟩ ⟨"q1", "a1", [], 0, some [1]⟩
      [1] [1]).1 rfl (by decide)
